import Mathlib

/-!
A shallow embedding of the core of the emsg-client-sdk Go library, together
with proofs about its behaviour.

Conventions used throughout the embedding:

* Go strings are Lean `String`s; `[]byte` payloads are `List Nat` (byte values).
* Go maps are association lists `List (String × v)`; `mapInsert` replaces the
  binding in place when the key is present and appends otherwise, `List.lookup`
  is map access, `eraseKey` is `delete`.
* Wall-clock time (`time.Now`) is passed in explicitly as an `Int` of Unix
  seconds; `time.Duration` quantities are rationals measured in seconds, so
  that the float64 backoff arithmetic of the source can be carried exactly.
* The Go standard-library and x/crypto primitives (crypto/ed25519,
  crypto/sha256, golang.org/x/crypto/nacl/box) are modelled symbolically: an
  Ed25519 signature records the signing private key and the exact payload,
  and verification succeeds exactly for the matching public key (the last 32
  bytes of the 64-byte private key, which is how crypto/ed25519 lays keys
  out) and the exact payload — a perfect, collision-free scheme; digests are
  an injective tagging of the input. No claim below depends on bit-level
  properties of the real primitives. The keymgmt wrappers around them (the
  key pair struct, base64-encoded public keys, `LoadPublicKeyFromBase64`
  with its error paths) are embedded from the source, with
  `base64.StdEncoding` implemented concretely over byte lists.
* Functions that can fail return `Except String a`; Go code that would panic
  (index out of range, nil dereference) is modelled by `Option` or by an
  explicitly commented error branch.
-/

namespace Emsg

/-! ## Go string and map helpers -/

/-! Character-level helpers standing in for Go string functions: the Lean
core `String` functions work on byte positions and do not reduce inside the
kernel, so the embedding works on `String.data` instead. -/

/-- Go `strings.TrimSpace` (leading and trailing whitespace dropped). -/
def goTrim (s : String) : String :=
  String.mk (((s.data.dropWhile Char.isWhitespace).reverse.dropWhile
    Char.isWhitespace).reverse)

/-- Go `strings.ToLower` on the ASCII fragment the callers use. -/
def goToLower (s : String) : String := String.mk (s.data.map Char.toLower)

/-- Split at every occurrence of a separator character (Go `strings.Split`
with a one-character separator); always at least one part. -/
def splitOnChar (sep : Char) : List Char → List (List Char)
  | [] => [[]]
  | c :: t =>
    match splitOnChar sep t with
    | [] => [[]]
    | h :: r => if c = sep then [] :: h :: r else (c :: h) :: r

/-- Go `strings.Split(s, sep)` for a one-character separator. -/
def goSplitOn (s : String) (sep : Char) : List String :=
  (splitOnChar sep s.data).map String.mk

/-- Whether the first list is an initial run of the second. -/
def hasPrefixChars : List Char → List Char → Bool
  | [], _ => true
  | _ :: _, [] => false
  | p :: ps, c :: cs => p = c && hasPrefixChars ps cs

/-- Go `strings.HasPrefix(s, pre)`. -/
def goHasPrefix (s pre : String) : Bool := hasPrefixChars pre.data s.data

/-- The loop of Go `strings.Fields`: accumulate the current field (reversed)
and cut at whitespace runs. -/
def fieldsAux : List Char → List Char → List String
  | cur, [] => if cur = [] then [] else [String.mk cur.reverse]
  | cur, c :: t =>
    if c.isWhitespace then
      if cur = [] then fieldsAux [] t
      else String.mk cur.reverse :: fieldsAux [] t
    else fieldsAux (c :: cur) t

/-- Go `strings.Fields`: split around runs of whitespace, dropping empties. -/
def goFields (s : String) : List String := fieldsAux [] s.data

/-- The numeric value of a decimal digit string (callers guard that every
character is a digit). -/
def digitsToNat (l : List Char) : Nat :=
  l.foldl (fun a c => a * 10 + (c.toNat - 48)) 0

/-- Split a character list at the first `=`, as `strings.SplitN(s, "=", 2)`
does; `none` when there is no `=` (the length-1 result in Go). -/
def splitEqChars : List Char → Option (List Char × List Char)
  | [] => none
  | c :: t =>
    if c = '=' then some ([], t)
    else (splitEqChars t).map (fun p => (c :: p.1, p.2))

/-- `strings.SplitN(s, "=", 2)` restricted to the case the caller keeps:
the pair of the part before the first `=` and everything after it. -/
def goSplitN2 (s : String) : Option (String × String) :=
  (splitEqChars s.data).map (fun p => (String.mk p.1, String.mk p.2))

/-- Go map insert: replace the first binding of the key, else append. -/
def mapInsert {v : Type} : List (String × v) → String → v → List (String × v)
  | [], k, x => [(k, x)]
  | (k', x') :: t, k, x =>
    if k = k' then (k, x) :: t else (k', x') :: mapInsert t k x

/-- Go map delete: drop the first binding of the key. -/
def eraseKey {v : Type} : List (String × v) → String → List (String × v)
  | [], _ => []
  | (k', x') :: t, k => if k = k' then t else (k', x') :: eraseKey t k

/-! ## utils/helpers.go — EMSG address validation -/

/-- The character class of the user part, Go regexp `[a-zA-Z0-9._-]`. -/
def isUserChar (c : Char) : Bool :=
  c.isAlphanum || c = '.' || c = '_' || c = '-'

/-- One domain label as accepted by the Go regexp
`[a-zA-Z0-9]([a-zA-Z0-9-]{0,61}[a-zA-Z0-9])?` combined with the explicit
per-label loop of `IsValidDomain` (length 1..63, no leading or trailing
hyphen). -/
def isDomainLabelOk (l : String) : Bool :=
  l ≠ "" && l.data.length ≤ 63 &&
  l.data.all (fun c => c.isAlphanum || c = '-') &&
  (l.data.head?.elim false Char.isAlphanum) &&
  (l.data.getLast?.elim false Char.isAlphanum)

/-- One dotted-quad octet as `net.ParseIP` accepts it (Go 1.17+: decimal,
at most 3 digits, no leading zero, value at most 255). -/
def isIPv4Octet (s : String) : Bool :=
  s ≠ "" && s.data.length ≤ 3 && s.data.all Char.isDigit &&
  (s = "0" || ¬ goHasPrefix s "0") &&
  (digitsToNat s.data ≤ 255)

/-- `net.ParseIP(domain) != nil`, restricted to strings that already passed
the domain regexp (which excludes `:`): only IPv4 dotted quads can occur. -/
def goParseIPSucceeds (s : String) : Bool :=
  match goSplitOn s '.' with
  | [a, b, c, d] => isIPv4Octet a && isIPv4Octet b && isIPv4Octet c && isIPv4Octet d
  | _ => false

/-- `utils.IsValidDomain`. -/
def isValidDomain (domain : String) : Bool :=
  domain ≠ "" &&
  (goSplitOn domain '.').all isDomainLabelOk &&
  ¬ goParseIPSucceeds domain &&
  domain.data.any (fun c => c = '.') &&
  domain.data.length ≤ 253

structure EMSGAddress where
  user : String
  domain : String
  raw : String
deriving DecidableEq, Repr

/-- `utils.ParseEMSGAddress`. -/
def parseEMSGAddress (address : String) : Except String EMSGAddress :=
  if address = "" then .error "address cannot be empty"
  else match goSplitOn address '#' with
    | [u0, d0] =>
      let user := goTrim u0
      let domain := goTrim d0
      if user = "" then .error "user part cannot be empty"
      else if ¬ (user.data ≠ [] && user.data.all isUserChar) then
        .error ("invalid user format: " ++ user)
      else if domain = "" then .error "domain part cannot be empty"
      else if ¬ isValidDomain domain then .error ("invalid domain format: " ++ domain)
      else .ok ⟨user, domain, address⟩
    | _ => .error ("invalid EMSG address format: expected user#domain.com, got " ++ address)

/-- `utils.IsValidEMSGAddress`. -/
def isValidEMSGAddress (address : String) : Bool :=
  (parseEMSGAddress address).toOption.isSome

/-- The loop of `utils.ValidateEMSGAddressList`, carrying the index used in
the error message. -/
def validateEMSGAddressListFrom (i : Nat) : List String → Except String Unit
  | [] => .ok ()
  | a :: t =>
    if ¬ isValidEMSGAddress a then
      .error ("invalid EMSG address at index " ++ toString i ++ ": " ++ a)
    else validateEMSGAddressListFrom (i + 1) t

/-- `utils.ValidateEMSGAddressList`. -/
def validateEMSGAddressList (addresses : List String) : Except String Unit :=
  validateEMSGAddressListFrom 0 addresses

/-! ## Go encoding/json string escaping

`json.Marshal` (with its default HTML escaping) writes a Go string between
double quotes, escaping `"` and `\` and the ASCII control characters, turning
`\n`, `\r`, `\t` into their two-character escapes and the remaining controls
into `\u00xx`, and escaping `<`, `>`, `&`, U+2028, U+2029 as `\uxxxx`.
-/

/-- Lowercase hexadecimal digit, as the Go encoder emits. -/
def hexDigitChar (n : Nat) : Char :=
  if n < 10 then Char.ofNat (48 + n) else Char.ofNat (87 + n)

/-- The escape sequence `json.Marshal` emits for one character. -/
def escChar (c : Char) : List Char :=
  if c = '"' then ['\\', '"']
  else if c = '\\' then ['\\', '\\']
  else if c = '\n' then ['\\', 'n']
  else if c = '\r' then ['\\', 'r']
  else if c = '\t' then ['\\', 't']
  else if c.toNat < 32 then
    ['\\', 'u', '0', '0', hexDigitChar (c.toNat / 16), hexDigitChar (c.toNat % 16)]
  else if c = '<' then ['\\', 'u', '0', '0', '3', 'c']
  else if c = '>' then ['\\', 'u', '0', '0', '3', 'e']
  else if c = '&' then ['\\', 'u', '0', '0', '2', '6']
  else if c.toNat = 8232 then ['\\', 'u', '2', '0', '2', '8']
  else if c.toNat = 8233 then ['\\', 'u', '2', '0', '2', '9']
  else [c]

/-- The body of a JSON string literal for the given characters. -/
def jsonEscape (l : List Char) : List Char :=
  (l.map escChar).flatten

/-- A complete JSON string literal for a Go string. -/
def jsonQuote (s : String) : String :=
  String.mk ('"' :: (jsonEscape s.data ++ ['"']))

/-- The value of a lowercase hexadecimal digit (only applied to digits
`hexDigitChar` produced). -/
def hexVal (c : Char) : Nat :=
  if c.isDigit then c.toNat - 48 else c.toNat - 87

/-- A decoder for the escape format: reads back exactly one escaped
character and returns the remaining characters. Every `escChar c ++ r`
decodes to `(c, r)`, which makes the escaping uniquely decodable and hence
the canonical signing payload injective in the body. -/
def escDecode (l : List Char) : Option (Char × List Char) :=
  match l with
  | [] => none
  | c :: r =>
    if c = '\\' then
      match r with
      | [] => none
      | d :: r2 =>
        if d = '"' then some ('"', r2)
        else if d = '\\' then some ('\\', r2)
        else if d = 'n' then some ('\n', r2)
        else if d = 'r' then some ('\r', r2)
        else if d = 't' then some ('\t', r2)
        else if d = 'u' then
          match r2 with
          | h1 :: h2 :: h3 :: h4 :: r3 =>
            some (Char.ofNat (((hexVal h1 * 16 + hexVal h2) * 16 + hexVal h3) * 16 + hexVal h4),
              r3)
          | _ => none
        else none
    else some (c, r)

/-- A JSON array of string literals (Go `[]string`). -/
def jsonArrString (l : List String) : String :=
  "[" ++ String.intercalate "," (l.map jsonQuote) ++ "]"

/-! ## keymgmt — signing keys (src/utils/helpers.go, package keymgmt section)

The file src/utils/helpers.go concatenates three Go files; its third part is
`package keymgmt`, embedded here. `base64.StdEncoding` is implemented
concretely over byte lists. Only the Go standard-library primitive
crypto/ed25519 itself stays symbolic: an `ed25519.PrivateKey` is the 64-byte
slice laid out as seed followed by public key (so `Public()` is `drop 32`),
a signature records the signing private key and the exact payload, and
`ed25519.Verify` succeeds exactly for the matching public key and payload —
a perfect, collision-free scheme. Everything the keymgmt package itself does
(the struct fields, base64 encoding of public keys, `LoadPublicKeyFromBase64`
with its malformed-base64 and wrong-length error paths) follows the source. -/

/-- Standard base64 alphabet, by 6-bit value. -/
def b64Char (n : Nat) : Char :=
  if n < 26 then Char.ofNat (65 + n)
  else if n < 52 then Char.ofNat (97 + (n - 26))
  else if n < 62 then Char.ofNat (48 + (n - 52))
  else if n = 62 then '+'
  else '/'

/-- Base64 encoding of a byte list: 3-byte groups map to 4 characters, a
final 1- or 2-byte group is closed with padding. -/
def b64Encode : List Nat → List Char
  | [] => []
  | [a] => [b64Char (a / 4), b64Char (a % 4 * 16), '=', '=']
  | [a, b] => [b64Char (a / 4), b64Char (a % 4 * 16 + b / 16), b64Char (b % 16 * 4), '=']
  | a :: b :: d :: rest =>
    b64Char (a / 4) :: b64Char (a % 4 * 16 + b / 16) ::
      b64Char (b % 16 * 4 + d / 64) :: b64Char (d % 64) :: b64Encode rest

/-- Go `base64.StdEncoding.EncodeToString`. -/
def b64StdEncode (bytes : List Nat) : String := String.mk (b64Encode bytes)

/-- The 6-bit value of a base64 alphabet character (`none` off the alphabet). -/
def b64CharVal (c : Char) : Option Nat :=
  if 'A' ≤ c ∧ c ≤ 'Z' then some (c.toNat - 65)
  else if 'a' ≤ c ∧ c ≤ 'z' then some (c.toNat - 71)
  else if '0' ≤ c ∧ c ≤ '9' then some (c.toNat - 48 + 52)
  else if c = '+' then some 62
  else if c = '/' then some 63
  else none

/-- Go `base64.StdEncoding.DecodeString`: the input must be a sequence of
4-character groups over the alphabet, with padding only closing the final
group; anything else is Go's `CorruptInputError`, the `none` outcome here. -/
def b64Decode : List Char → Option (List Nat)
  | [] => some []
  | c1 :: c2 :: c3 :: c4 :: rest =>
    match b64CharVal c1, b64CharVal c2 with
    | some v1, some v2 =>
      if c3 = '=' then
        if c4 = '=' ∧ rest = [] then some [v1 * 4 + v2 / 16] else none
      else
        match b64CharVal c3 with
        | none => none
        | some v3 =>
          if c4 = '=' then
            if rest = [] then some [v1 * 4 + v2 / 16, v2 % 16 * 16 + v3 / 4] else none
          else
            match b64CharVal c4 with
            | none => none
            | some v4 =>
              (b64Decode rest).map
                (fun t => (v1 * 4 + v2 / 16) :: (v2 % 16 * 16 + v3 / 4) ::
                  (v3 % 4 * 64 + v4) :: t)
    | _, _ => none
  | _ => none

/-- Symbolic `crypto/ed25519` signature: the signing private key bytes and
the exact signed payload. -/
structure Ed25519Sig where
  signerPriv : List Nat
  signedMsg : String
deriving DecidableEq, Repr

/-- Go `ed25519.Sign` (standard library, symbolic). -/
def ed25519SignBytes (priv : List Nat) (message : String) : Ed25519Sig :=
  ⟨priv, message⟩

/-- The public key crypto/ed25519 pairs with a private key: a Go
`ed25519.PrivateKey` is the 64-byte concatenation of the seed and the public
key, and `Public()` returns its last 32 bytes. -/
def ed25519PubOfPriv (priv : List Nat) : List Nat := priv.drop 32

/-- Go `ed25519.Verify` (standard library, symbolic): succeeds exactly when
the signature was produced by the private key matching `pub`, over exactly
`message`. -/
def ed25519Verify (pub : List Nat) (message : String) (sig : Ed25519Sig) : Bool :=
  ed25519PubOfPriv sig.signerPriv == pub && sig.signedMsg == message

/-- `keymgmt.KeyPair`: an Ed25519 private and public key, as byte lists. -/
structure KeyPair where
  privateKey : List Nat
  publicKey : List Nat
deriving DecidableEq, Repr

/-- `keymgmt.KeyPair.Sign`: `ed25519.Sign(kp.PrivateKey, message)`. -/
def KeyPair.sign (kp : KeyPair) (message : String) : Ed25519Sig :=
  ed25519SignBytes kp.privateKey message

/-- `keymgmt.KeyPair.PublicKeyBase64`:
`base64.StdEncoding.EncodeToString(kp.PublicKey)`. -/
def KeyPair.publicKeyBase64 (kp : KeyPair) : String := b64StdEncode kp.publicKey

/-- `keymgmt.LoadPublicKeyFromBase64`: base64-decode (error on malformed
input), then require exactly `ed25519.PublicKeySize` = 32 bytes. -/
def loadPublicKeyFromBase64 (base64Key : String) : Except String (List Nat) :=
  match b64Decode base64Key.data with
  | none => .error "failed to decode public key base64"
  | some publicKeyBytes =>
    if publicKeyBytes.length ≠ 32 then
      .error ("invalid public key size: expected 32, got " ++ toString publicKeyBytes.length)
    else .ok publicKeyBytes

/-! ## encryption/encryption.go

NaCl box (golang.org/x/crypto/nacl/box) is external; symbolically a 32-byte
key is a `Nat` token and a ciphertext records exactly what `box.Seal` was
given. The random nonce drawn inside `Encrypt` is passed in explicitly. -/

structure EncryptionKeyPair where
  publicKey : Nat
  privateKey : Nat
deriving DecidableEq, Repr

inductive BoxCiphertext where
  | seal (plaintext : String) (nonce : Nat) (recipientPub : Nat) (senderPriv : Nat)
deriving DecidableEq, Repr

/-- `encryption.EncryptedMessage`. -/
structure EncryptedMessage where
  nonce : Nat
  ciphertext : BoxCiphertext
  publicKey : Nat
deriving DecidableEq, Repr

/-- `base64.StdEncoding.EncodeToString` of a 32-byte key token (symbolic). -/
def encPubB64 (pk : Nat) : String := "encpk:" ++ toString pk

/-- Base64 of a symbolic box ciphertext. -/
def boxCiphertextB64 : BoxCiphertext → String
  | .seal pt n rp sp =>
    "box:" ++ toString n ++ ":" ++ toString rp ++ ":" ++ toString sp ++ ":" ++ pt

/-- `json.Marshal` of an `EncryptedMessage`. The real encoder writes the
nonce and sender key as JSON byte arrays and the ciphertext as base64; here
their symbolic renderings stand in. The string is only ever compared
verbatim, and it is nonempty and begins with a brace. -/
def encodeEncryptedMessage (em : EncryptedMessage) : String :=
  "\x7b\"nonce\":" ++ toString em.nonce ++
  ",\"ciphertext\":" ++ jsonQuote (boxCiphertextB64 em.ciphertext) ++
  ",\"sender_public_key\":" ++ jsonQuote (encPubB64 em.publicKey) ++ "\x7d"

/-- `encryption.EncryptionManager` over the in-memory key store
(`MemoryKeyStore`: a map from address to 32-byte public key). -/
structure EncryptionManager where
  keyPair : EncryptionKeyPair
  keyStore : List (String × Nat)
deriving DecidableEq, Repr

/-- `EncryptionManager.CanEncryptFor` (`MemoryKeyStore.HasPublicKey`). -/
def canEncryptFor (em : EncryptionManager) (recipientAddress : String) : Bool :=
  (List.lookup recipientAddress em.keyStore).isSome

/-- `EncryptionManager.EncryptForRecipient`: look up the recipient key and
`box.Seal` the message with it under our private key. -/
def encryptForRecipient (em : EncryptionManager) (message : String) (nonce : Nat)
    (recipientAddress : String) : Except String EncryptedMessage :=
  match List.lookup recipientAddress em.keyStore with
  | none =>
    .error ("failed to get recipient public key: public key not found for address: "
      ++ recipientAddress)
  | some pk =>
    .ok ⟨nonce, .seal message nonce pk em.keyPair.privateKey, em.keyPair.publicKey⟩

/-! ## message/message.go -/

/-- `message.Message`. The `Attachments` field is omitted from the embedding:
no claim concerns messages carrying attachments, and for an attachment-free
message the field is `nil` and dropped from the JSON by `omitempty`, so the
signing payload below is exactly what the source marshals. The `Signature`
string holds a base64 signature; here the field holds the signature token
directly, with `none` standing for the empty string. -/
structure Message where
  from_ : String
  to_ : List String
  cc : List String
  subject : String
  body : String
  groupId : String
  timestamp : Int
  messageId : String
  signature : Option Ed25519Sig
  type : String
  encrypted : Bool
  encryptionKey : String
deriving DecidableEq, Repr

/-- The part of the canonical signing payload before the body literal:
`json.Marshal` of the struct emits the fields in declaration order, applying
`omitempty` to `cc`, `subject`, `group_id`, `message_id`, `type`,
`encrypted` and `encryption_key`; `getSigningPayload` blanks the signature
first, so no signature field ever appears. -/
def signingPayloadPre (m : Message) : String :=
  "\x7b\"from\":" ++ jsonQuote m.from_ ++
  ",\"to\":" ++ jsonArrString m.to_ ++
  (if m.cc = [] then "" else ",\"cc\":" ++ jsonArrString m.cc) ++
  (if m.subject = "" then "" else ",\"subject\":" ++ jsonQuote m.subject) ++
  ",\"body\":"

/-- The part of the canonical signing payload after the body literal. -/
def signingPayloadSuf (m : Message) : String :=
  (if m.groupId = "" then "" else ",\"group_id\":" ++ jsonQuote m.groupId) ++
  ",\"timestamp\":" ++ toString m.timestamp ++
  (if m.messageId = "" then "" else ",\"message_id\":" ++ jsonQuote m.messageId) ++
  (if m.type = "" then "" else ",\"type\":" ++ jsonQuote m.type) ++
  (if m.encrypted then ",\"encrypted\":true" else "") ++
  (if m.encryptionKey = "" then "" else ",\"encryption_key\":" ++ jsonQuote m.encryptionKey) ++
  "\x7d"

/-- `Message.getSigningPayload`: marshal the message with the signature field
set to the empty string. -/
def getSigningPayload (m : Message) : String :=
  signingPayloadPre m ++ jsonQuote m.body ++ signingPayloadSuf m

/-- `Message.Sign`: sign the payload and store the encoded signature. -/
def Message.sign (m : Message) (kp : KeyPair) : Message :=
  { m with signature := some (KeyPair.sign kp (getSigningPayload m)) }

/-- `Message.Verify`: require a signature, load the public key, recompute the
payload and check the signature. -/
def Message.verify (m : Message) (publicKey : String) : Except String Unit :=
  match m.signature with
  | none => .error "message is not signed"
  | some sig =>
    match loadPublicKeyFromBase64 publicKey with
    | .error e => .error ("failed to load public key: " ++ e)
    | .ok pub =>
      if ed25519Verify pub (getSigningPayload m) sig then .ok ()
      else .error "signature verification failed"

/-- `sha256` + URL-safe base64 of the first 16 bytes, symbolically (an
injective tagging); used only to generate message ids. -/
def goSha256B64Url (s : String) : String := "sha256url:" ++ s

/-- `MessageBuilder.generateMessageID`. -/
def generateMessageID (m : Message) : String :=
  goSha256B64Url (m.from_ ++ ":" ++ String.intercalate "," m.to_ ++ ":" ++
    m.body ++ ":" ++ toString m.timestamp)

/-- `message.MessageBuilder`. The attachment manager is omitted: no claim
attaches files, and an absent manager leaves `Build` unaffected. -/
structure MessageBuilder where
  message : Message
  encryptionManager : Option EncryptionManager
deriving Repr

/-- `message.NewMessageBuilder` at the given current time. -/
def newMessageBuilder (now : Int) : MessageBuilder :=
  ⟨⟨"", [], [], "", "", "", now, "", none, "", false, ""⟩, none⟩

/-- `MessageBuilder.encryptMessage`: if some recipient in `to ++ cc` lacks a
registered key, fall back to sending unencrypted (return the builder
unchanged); otherwise encrypt the body with the first recipient key, store
the JSON-serialized envelope in the body and mark the message encrypted. -/
def encryptMessage (mb : MessageBuilder) (nonce : Nat) : Except String MessageBuilder :=
  match mb.encryptionManager with
  | none => .error "encryption manager not set"
  | some em =>
    let allRecipients := mb.message.to_ ++ mb.message.cc
    if ¬ allRecipients.all (canEncryptFor em) then .ok mb
    else match allRecipients with
      | [] => .ok mb
      | r0 :: _ =>
        match encryptForRecipient em mb.message.body nonce r0 with
        | .error e => .error ("failed to encrypt message: " ++ e)
        | .ok encMsg =>
          .ok { mb with message := { mb.message with
                  body := encodeEncryptedMessage encMsg,
                  encrypted := true,
                  encryptionKey := encPubB64 em.keyPair.publicKey } }

/-- `MessageBuilder.validate`. For a `system:`-typed message the source
JSON-parses the body (`validateSystemMessage`); encoding/json parsing is not
modelled, so the embedding conservatively rejects that fragment — no claim
exercises system messages. -/
def mvalidate (mb : MessageBuilder) : Except String Unit :=
  if mb.message.from_ = "" then .error "from address is required"
  else if ¬ isValidEMSGAddress mb.message.from_ then
    .error ("invalid from address: " ++ mb.message.from_)
  else if mb.message.to_ = [] then .error "at least one recipient is required"
  else match validateEMSGAddressList (mb.message.to_ ++ mb.message.cc) with
    | .error e => .error ("invalid recipient address: " ++ e)
    | .ok _ =>
      if mb.message.body = "" then .error "message body is required"
      else if goHasPrefix mb.message.type "system:" then
        .error "system message validation not modelled"
      else .ok ()

/-- `MessageBuilder.Build`: optional encryption pass, validation, message-id
generation, returning the message value. -/
def build (mb0 : MessageBuilder) (nonce : Nat) : Except String Message :=
  let step1 : Except String MessageBuilder :=
    if mb0.encryptionManager.isSome && mb0.message.body ≠ "" then
      match encryptMessage mb0 nonce with
      | .error e => .error ("encryption failed: " ++ e)
      | .ok mb => .ok mb
    else .ok mb0
  match step1 with
  | .error e => .error e
  | .ok mb =>
    match mvalidate mb with
    | .error e => .error e
    | .ok _ =>
      if mb.message.messageId = "" then
        .ok { mb.message with messageId := generateMessageID mb.message }
      else .ok mb.message

/-! ## delivery/delivery.go

Times are Unix seconds (`Int`), passed in for `time.Now()`. Durations are
rationals in seconds so the float64 backoff product is exact.
`time.Since(time.Unix(ts, 0))` is `now - ts`. The callback machinery
(`triggerCallbacks`) only spawns goroutines that read a copy of the receipt;
it does not affect tracker state and is omitted, as is the informational
`Metadata` map filled at tracking time. -/

inductive DeliveryStatus where
  | pending
  | sent
  | delivered
  | failed
  | retrying
  | expired
deriving DecidableEq, Repr

structure DeliveryReceipt where
  messageId : String
  recipient : String
  status : DeliveryStatus
  timestamp : Int
  attemptCount : Nat
  lastAttempt : Int
  nextAttempt : Rat
  errorMessage : String
deriving DecidableEq, Repr

structure RetryStrategy where
  maxRetries : Nat
  initialDelay : Rat
  maxDelay : Rat
  backoffFactor : Rat
  expirationTime : Rat
  retryOnFailure : Bool
  retryOnTimeout : Bool
deriving DecidableEq, Repr

/-- `delivery.DefaultRetryStrategy`: 5 retries, 2 s initial delay, 5 min max
delay, factor 2.0, 24 h expiration. -/
def defaultRetryStrategy : RetryStrategy :=
  ⟨5, 2, 300, 2, 86400, true, true⟩

structure DeliveryTracker where
  receipts : List (String × DeliveryReceipt)
  retryStrategy : RetryStrategy
deriving DecidableEq, Repr

/-- `delivery.NewDeliveryTracker`. -/
def newDeliveryTracker (rs : Option RetryStrategy) : DeliveryTracker :=
  ⟨[], rs.getD defaultRetryStrategy⟩

/-- `DeliveryReceipt.IsTerminal`. -/
def DeliveryReceipt.isTerminal (r : DeliveryReceipt) : Bool :=
  r.status == .delivered || r.status == .failed || r.status == .expired

/-- `DeliveryTracker.TrackMessage`. The source reads `msg.To[0]`
unconditionally; on an empty `To` the Go expression panics with an
index-out-of-range runtime error, which the embedding renders as `none`. -/
def trackMessage (dt : DeliveryTracker) (now : Int) (msg : Message) :
    Option (DeliveryReceipt × DeliveryTracker) :=
  match msg.to_ with
  | [] => none
  | r0 :: _ =>
    let receipt : DeliveryReceipt := ⟨msg.messageId, r0, .pending, now, 0, 0, 0, ""⟩
    some (receipt, { dt with receipts := mapInsert dt.receipts msg.messageId receipt })

/-- `DeliveryTracker.calculateRetryDelay` (exponential backoff, capped). -/
def calculateRetryDelay (rs : RetryStrategy) (attemptCount : Nat) : Rat :=
  let delay := rs.initialDelay * rs.backoffFactor ^ (attemptCount - 1)
  if delay > rs.maxDelay then rs.maxDelay else delay

/-- The receipt-update chain of `UpdateDeliveryStatus`, in source order: the
status and the `Timestamp` field are overwritten first, the error message is
recorded when nonempty, the attempt bookkeeping runs for `sent`/`retrying`,
and only then is the expiration test made — against the just-refreshed
`Timestamp`. -/
def updateReceipt (rs : RetryStrategy) (now : Int) (receipt : DeliveryReceipt)
    (status : DeliveryStatus) (errorMsg : String) : DeliveryReceipt :=
  let r1 := { receipt with status := status, timestamp := now }
  let r2 := if errorMsg ≠ "" then { r1 with errorMessage := errorMsg } else r1
  let r3 :=
    if status = .sent ∨ status = .retrying then
      let ra := { r2 with attemptCount := r2.attemptCount + 1, lastAttempt := now }
      if status = .retrying ∧ ra.attemptCount < rs.maxRetries then
        { ra with nextAttempt := (now : Rat) + calculateRetryDelay rs ra.attemptCount }
      else ra
    else r2
  if ((now - r3.timestamp : Int) : Rat) > rs.expirationTime then
    { r3 with status := .expired }
  else r3

/-- `DeliveryTracker.UpdateDeliveryStatus`. -/
def updateDeliveryStatus (dt : DeliveryTracker) (now : Int) (messageID : String)
    (status : DeliveryStatus) (errorMsg : String) : Except String DeliveryTracker :=
  match List.lookup messageID dt.receipts with
  | none => .error ("message " ++ messageID ++ " not found in delivery tracker")
  | some receipt =>
    let r := updateReceipt dt.retryStrategy now receipt status errorMsg
    .ok { dt with receipts := mapInsert dt.receipts messageID r }

/-- `DeliveryTracker.CleanupExpiredReceipts`: drop every receipt whose
`Timestamp` is more than `ExpirationTime` in the past; also return how many
were removed. -/
def cleanupExpiredReceipts (dt : DeliveryTracker) (now : Int) : DeliveryTracker × Nat :=
  let kept := dt.receipts.filter
    (fun p => ¬ (((now - p.2.timestamp : Int) : Rat) > dt.retryStrategy.expirationTime))
  ({ dt with receipts := kept }, dt.receipts.length - kept.length)

/-! ## groups (src/unnamed/part_007)

`GroupRole` and `Permission` are Go string types; they stay `String`s here,
including the behaviour of `canModifyRole` on a role outside the hierarchy
map (Go map lookup yields the zero value 0). The `Metadata` map and the
mutexes are omitted. -/

structure GroupMember where
  address : String
  role : String
  joinedAt : Int
  invitedBy : String
  status : String
deriving DecidableEq, Repr

structure GroupSettings where
  isPublic : Bool
  requireInvite : Bool
  allowGuestMessages : Bool
  maxMembers : Int
  messageRetention : Rat
  permissions : List (String × List String)
deriving DecidableEq, Repr

/-- `groups.DefaultGroupSettings`. -/
def defaultGroupSettings : GroupSettings :=
  ⟨false, true, false, 100, 2592000,
    [("owner",
      ["send_message", "delete_message", "add_member", "remove_member",
       "change_role", "manage_group", "view_members", "view_history",
       "create_subgroup", "delete_group"]),
     ("admin",
      ["send_message", "delete_message", "add_member", "remove_member",
       "change_role", "manage_group", "view_members", "view_history",
       "create_subgroup"]),
     ("moderator",
      ["send_message", "delete_message", "add_member", "view_members",
       "view_history"]),
     ("member", ["send_message", "view_members", "view_history"]),
     ("guest", ["view_history"])]⟩

structure Group where
  id : String
  name : String
  description : String
  createdAt : Int
  createdBy : String
  members : List (String × GroupMember)
  settings : GroupSettings
deriving DecidableEq, Repr

/-- `Group.HasPermission`. -/
def hasPermission (g : Group) (address : String) (permission : String) : Bool :=
  match List.lookup address g.members with
  | none => false
  | some member =>
    match List.lookup member.role g.settings.permissions with
    | none => false
    | some perms => perms.contains permission

/-- The `roleHierarchy` map of `canModifyRole`; unknown roles get the Go map
zero value 0. -/
def roleLevel (role : String) : Nat :=
  if role = "owner" then 5
  else if role = "admin" then 4
  else if role = "moderator" then 3
  else if role = "member" then 2
  else if role = "guest" then 1
  else 0

/-- `Group.canModifyRole`: strictly higher hierarchy level required. -/
def canModifyRole (modifierRole targetRole : String) : Bool :=
  roleLevel modifierRole > roleLevel targetRole

/-- `Group.AddMember`. -/
def addMember (g : Group) (now : Int) (address invitedBy : String) (role : String) :
    Except String Group :=
  if ¬ hasPermission g invitedBy "add_member" then
    .error "insufficient permissions to add member"
  else if (List.lookup address g.members).isSome then
    .error ("member " ++ address ++ " already exists in group")
  else if (g.members.length : Int) ≥ g.settings.maxMembers then
    .error "group has reached maximum member limit"
  else
    .ok { g with members := mapInsert g.members address ⟨address, role, now, invitedBy, "active"⟩ }

/-- `Group.RemoveMember`. The requester lookup cannot fail once
`HasPermission` has passed (a missing requester would be a nil dereference in
the source); the branch is kept only to make the function total. -/
def removeMember (g : Group) (address requesterAddress : String) : Except String Group :=
  if ¬ hasPermission g requesterAddress "remove_member" then
    .error "insufficient permissions to remove member"
  else match List.lookup address g.members with
    | none => .error ("member " ++ address ++ " not found in group")
    | some member =>
      if member.role = "owner" then .error "cannot remove group owner"
      else match List.lookup requesterAddress g.members with
        | none => .error "requester not found in group"
        | some requesterMember =>
          if ¬ canModifyRole requesterMember.role member.role then
            .error ("insufficient permissions to remove member with role " ++ member.role)
          else .ok { g with members := eraseKey g.members address }

/-- `Group.ChangeRole`. -/
def changeRole (g : Group) (address requesterAddress : String) (newRole : String) :
    Except String Group :=
  if ¬ hasPermission g requesterAddress "change_role" then
    .error "insufficient permissions to change role"
  else match List.lookup address g.members with
    | none => .error ("member " ++ address ++ " not found in group")
    | some member =>
      match List.lookup requesterAddress g.members with
      | none => .error "requester not found in group"
      | some requesterMember =>
        if ¬ canModifyRole requesterMember.role member.role ∨
            ¬ canModifyRole requesterMember.role newRole then
          .error "insufficient permissions to change role"
        else if member.role = "owner" ∨ newRole = "owner" then
          .error "cannot change owner role"
        else .ok { g with members := mapInsert g.members address { member with role := newRole } }

/-- `GroupManager.CreateGroup`: reject duplicate ids, default the settings,
insert the creator as the sole member with role owner and status active. -/
def createGroup (gm : List (String × Group)) (now : Int) (id name createdBy : String)
    (settings : Option GroupSettings) : Except String (Group × List (String × Group)) :=
  if (List.lookup id gm).isSome then .error ("group " ++ id ++ " already exists")
  else
    let s := settings.getD defaultGroupSettings
    let g : Group :=
      ⟨id, name, "", now, createdBy,
        [(createdBy, ⟨createdBy, "owner", now, "", "active"⟩)], s⟩
    .ok (g, mapInsert gm id g)

/-- The group state after an `AddMember` call: Go mutates the group in place
on success and leaves it untouched on error. -/
def applyAddMember (g : Group) (now : Int) (address invitedBy role : String) : Group :=
  match addMember g now address invitedBy role with
  | .ok g' => g'
  | .error _ => g

/-- The group state after a `RemoveMember` call. -/
def applyRemoveMember (g : Group) (address requesterAddress : String) : Group :=
  match removeMember g address requesterAddress with
  | .ok g' => g'
  | .error _ => g

/-- The group state after a `ChangeRole` call. -/
def applyChangeRole (g : Group) (address requesterAddress newRole : String) : Group :=
  match changeRole g address requesterAddress newRole with
  | .ok g' => g'
  | .error _ => g

/-- The number of members of a group whose role is owner. -/
def ownerCount (g : Group) : Nat :=
  g.members.countP (fun p => p.2.role = "owner")

/-! ## dns (src/unnamed/part_008) — key-value TXT record parsing -/

structure EMSGServerInfo where
  url : String
  publicKey : String
  version : String
deriving DecidableEq, Repr

/-- A parsed URL as far as `validateURL` inspects it. -/
structure GoURL where
  scheme : String
  host : String
deriving DecidableEq, Repr

/-- Split a character list at the first `:`. -/
def splitColonChars : List Char → Option (List Char × List Char)
  | [] => none
  | c :: t =>
    if c = ':' then some ([], t)
    else (splitColonChars t).map (fun p => (c :: p.1, p.2))

/-- A scheme character after the first: ALPHA / DIGIT / `+` / `-` / `.`. -/
def isSchemeChar (c : Char) : Bool :=
  c.isAlphanum || c = '+' || c = '-' || c = '.'

/-- The scheme part of a URL, lowercased as `net/url` does, together with
everything after the colon; `none` when the string has no valid scheme. -/
def schemeSplit (s : String) : Option (String × String) :=
  match splitColonChars s.data with
  | none => none
  | some (sc, rest) =>
    match sc with
    | [] => none
    | c0 :: cs =>
      if c0.isAlpha && cs.all isSchemeChar then
        some (goToLower (String.mk sc), String.mk rest)
      else none

/-- A model of `net/url.Parse` restricted to what `validateURL` reads: the
scheme, and for `scheme://…` URLs the authority (host, including any port)
running to the first `/`, `?` or `#`. Strings without a valid scheme parse
as relative references with empty scheme and host. Parse failures of the
real parser (control characters, malformed ports) are not modelled. -/
def urlParse (s : String) : GoURL :=
  match schemeSplit s with
  | some (sc, rest) =>
    if goHasPrefix rest "//" then
      ⟨sc, String.mk ((rest.data.drop 2).takeWhile
        (fun c => ¬ (c = '/' ∨ c = '?' ∨ c = '#')))⟩
    else ⟨sc, ""⟩
  | none => ⟨"", ""⟩

/-- `Resolver.validateURL`. -/
def validateURL (urlStr : String) : Except String Unit :=
  let u := urlParse urlStr
  if u.scheme ≠ "http" ∧ u.scheme ≠ "https" then
    .error ("URL must use HTTP or HTTPS scheme, got: " ++ u.scheme)
  else if u.host = "" then .error "URL must have a host"
  else .ok ()

/-- The body of the `parseKeyValueRecord` loop for a single space-separated
part: trim and lowercase the key, trim the value, and assign the matching
field — an assignment, so a later duplicate key overwrites an earlier one. -/
def kvStep (info : EMSGServerInfo) (part : String) : EMSGServerInfo :=
  match goSplitN2 part with
  | none => info
  | some (k, v) =>
    let key := goToLower (goTrim k)
    let value := goTrim v
    if key = "url" then { info with url := value }
    else if key = "pubkey" ∨ key = "publickey" then { info with publicKey := value }
    else if key = "version" then { info with version := value }
    else info

/-- `Resolver.parseKeyValueRecord`. -/
def parseKeyValueRecord (record : String) : Except String EMSGServerInfo :=
  let info := (goFields record).foldl kvStep ⟨"", "", ""⟩
  if info.url = "" then .error "missing URL in key-value record"
  else match validateURL info.url with
    | .error e => .error ("invalid URL in key-value record: " ++ e)
    | .ok _ => .ok info

/-- The key/value pairs a list of record parts contributes, in order: the
parts that contain an `=`, with keys trimmed and lowercased and values
trimmed. -/
def kvPairsList (parts : List String) : List (String × String) :=
  parts.filterMap
    (fun part => (goSplitN2 part).map (fun p => (goToLower (goTrim p.1), goTrim p.2)))

/-- The key/value pairs of a whole record. -/
def kvPairs (record : String) : List (String × String) :=
  kvPairsList (goFields record)

/-- The value of the last pair whose key satisfies the predicate. -/
def lastVal (pred : String → Bool) (pairs : List (String × String)) : Option String :=
  pairs.foldl (fun acc p => if pred p.1 then some p.2 else acc) none

/-! ## attachments/attachments.go

`crypto/sha256` + base64 is symbolic (`calculateChecksum` is injective; both
sides of every checksum comparison below go through it). File I/O
(`CreateAttachmentFromFile`, `SaveAttachment`, `LoadAttachment`) is not
modelled; `CreateAttachmentFromData` covers the shared creation logic. -/

structure AttachmentChunk where
  index : Nat
  size : Nat
  checksum : String
  data : List Nat
deriving DecidableEq, Repr

/-- `attachments.Attachment` (the informational `Metadata`, `Encrypted` and
`Compression` fields are omitted; nothing reads them). -/
structure Attachment where
  id : String
  name : String
  mimeType : String
  size : Int
  checksum : String
  createdAt : Int
  data : List Nat
  url : String
  chunks : List AttachmentChunk
deriving DecidableEq, Repr

structure AttachmentManager where
  maxFileSize : Int
  maxChunkSize : Int
  allowedTypes : List String
  storageDir : String
  enableChunking : Bool
deriving DecidableEq, Repr

/-- The manager built from `DefaultAttachmentConfig`: 50 MiB files, 1 MiB
chunks, all MIME types allowed, chunking enabled. -/
def defaultAttachmentManager : AttachmentManager :=
  ⟨52428800, 1048576, [], "./attachments", true⟩

/-- `AttachmentManager.calculateChecksum`: base64 of the SHA-256 digest,
symbolically (injective tagging of the bytes). -/
def calculateChecksum (data : List Nat) : String :=
  "sha256b64:" ++ toString data

/-- The loop of `createChunks`: slices of `csize` bytes, indexed from
`startIdx`. A non-positive `MaxChunkSize` would make the Go loop run
forever (`i += 0`); the embedding returns `[]` there, and every theorem
touching chunking assumes a positive chunk size. -/
def chunksFrom (csize : Nat) (data : List Nat) (startIdx : Nat) : List AttachmentChunk :=
  if h : csize = 0 ∨ data = [] then []
  else
    let chunkData := data.take csize
    ⟨startIdx, chunkData.length, calculateChecksum chunkData, chunkData⟩ ::
      chunksFrom csize (data.drop csize) (startIdx + 1)
termination_by data.length
decreasing_by
  rcases not_or.mp h with ⟨h1, h2⟩
  have hl : 0 < data.length := List.length_pos.mpr h2
  simp only [List.length_drop]
  omega

/-- `AttachmentManager.createChunks`. -/
def createChunks (am : AttachmentManager) (data : List Nat) : List AttachmentChunk :=
  chunksFrom am.maxChunkSize.toNat data 0

/-- `AttachmentManager.generateID` (`att_<unix-nano>`; the clock value is a
parameter). -/
def generateAttachmentID (now : Int) : String := "att_" ++ toString now

/-- `AttachmentManager.CreateAttachmentFromData`: size limit, default MIME
type, allow-list, checksum, then inline storage when the data fits in one
chunk (or chunking is disabled) and chunked storage otherwise. -/
def createAttachmentFromData (am : AttachmentManager) (now : Int) (name : String)
    (data : List Nat) (mimeType : String) : Except String Attachment :=
  if (data.length : Int) > am.maxFileSize then
    .error ("data size " ++ toString data.length ++ " exceeds maximum " ++ toString am.maxFileSize)
  else
    let mt := if mimeType = "" then "application/octet-stream" else mimeType
    if am.allowedTypes ≠ [] ∧ ¬ am.allowedTypes.contains mt then
      .error ("MIME type " ++ mt ++ " not allowed")
    else
      let base : Attachment :=
        ⟨generateAttachmentID now, name, mt, (data.length : Int),
          calculateChecksum data, now, [], "", []⟩
      if (data.length : Int) ≤ am.maxChunkSize ∨ ¬ am.enableChunking then
        .ok { base with data := data }
      else
        .ok { base with chunks := createChunks am data }

/-- Chunk reassembly: the chunk data concatenated in stored (index) order,
as both `ValidateAttachment` and `GetAttachmentData` do. -/
def reassembleChunks (chunks : List AttachmentChunk) : List Nat :=
  (chunks.map (fun c => c.data)).flatten

/-- `AttachmentManager.GetAttachmentData`. -/
def getAttachmentData (a : Attachment) : Except String (List Nat) :=
  if a.data.length > 0 then .ok a.data
  else if a.chunks.length > 0 then .ok (reassembleChunks a.chunks)
  else .error "attachment has no data"

/-- `AttachmentManager.ValidateAttachment`: reassemble, check the length
against `Size` and the checksum against `Checksum`. -/
def validateAttachment (a : Attachment) : Except String Unit :=
  if a.data.length > 0 ∨ a.chunks.length > 0 then
    let d := if a.data.length > 0 then a.data else reassembleChunks a.chunks
    if (d.length : Int) ≠ a.size then
      .error ("size mismatch: expected " ++ toString a.size ++ ", got " ++ toString d.length)
    else if calculateChecksum d ≠ a.checksum then
      .error ("checksum mismatch: expected " ++ a.checksum ++ ", got " ++ calculateChecksum d)
    else .ok ()
  else .error "attachment has no data"

/-! ## auth/auth.go -/

/-- Go `strings.ToUpper`, on the ASCII fragment auth methods live in
(character-wise uppercasing). -/
def goToUpper (s : String) : String := String.mk (s.data.map Char.toUpper)

/-- `auth.AuthPayload`. -/
structure AuthPayload where
  method : String
  path : String
  timestamp : Int
  nonce : String
deriving DecidableEq, Repr

/-- `AuthPayload.String`: `METHOD:PATH:TIMESTAMP:NONCE`. -/
def AuthPayload.render (ap : AuthPayload) : String :=
  ap.method ++ ":" ++ ap.path ++ ":" ++ toString ap.timestamp ++ ":" ++ ap.nonce

/-- `auth.AuthHeader`. As with messages, the base64 signature string is
carried as the signature token itself. -/
structure AuthHeader where
  publicKey : String
  signature : Ed25519Sig
  timestamp : Int
  nonce : String
deriving DecidableEq, Repr

/-- `auth.GenerateAuthHeader` with the clock and the random nonce passed in. -/
def generateAuthHeader (kp : KeyPair) (now : Int) (nonce : String)
    (method path : String) : AuthHeader :=
  let payload : AuthPayload := ⟨goToUpper method, path, now, nonce⟩
  ⟨kp.publicKeyBase64, KeyPair.sign kp payload.render, now, nonce⟩

/-- `auth.abs`. -/
def goAbs (x : Int) : Int := if x < 0 then -x else x

/-- `auth.VerifyAuthHeader`: load the key, reconstruct the payload from the
method, path and the header timestamp and nonce, verify the signature, then
require the timestamp within the 5-minute window. -/
def verifyAuthHeader (now : Int) (authHeader : AuthHeader) (method path : String) :
    Except String Unit :=
  match loadPublicKeyFromBase64 authHeader.publicKey with
  | .error e => .error ("failed to load public key: " ++ e)
  | .ok publicKey =>
    let payload : AuthPayload := ⟨goToUpper method, path, authHeader.timestamp, authHeader.nonce⟩
    if ¬ ed25519Verify publicKey payload.render authHeader.signature then
      .error "signature verification failed"
    else if goAbs (now - authHeader.timestamp) > 300 then
      .error "timestamp too old or too far in future"
    else .ok ()

/-! ## Concrete fixtures used by the closed theorems below -/

/-- A minimal valid message with one recipient. -/
def demoMsg : Message :=
  ⟨"alice#example.com", ["bob#test.org"], [], "", "hi", "", 1700000000, "m1",
    none, "", false, ""⟩

/-- The same message with an empty recipient list. -/
def demoMsgNoTo : Message :=
  ⟨"alice#example.com", [], [], "", "hi", "", 1700000000, "m2", none, "", false, ""⟩

/-- A tracker that has started tracking `demoMsg`. -/
def c1Tracker1 : DeliveryTracker :=
  match trackMessage (newDeliveryTracker none) 1000 demoMsg with
  | some p => p.2
  | none => newDeliveryTracker none

/-- `c1Tracker1` after marking the message delivered — a terminal receipt. -/
def c1Tracker2 : DeliveryTracker :=
  match updateDeliveryStatus c1Tracker1 1001 "m1" .delivered "" with
  | .ok dt => dt
  | .error _ => c1Tracker1

/-- `c1Tracker2` after a further update back to pending. -/
def c1Tracker3 : DeliveryTracker :=
  match updateDeliveryStatus c1Tracker2 1002 "m1" .pending "" with
  | .ok dt => dt
  | .error _ => c1Tracker2

/-- A fresh group created by alice (sole member, role owner). -/
def c2Group0 : Group :=
  match createGroup [] 100 "team#example.com" "Team" "alice#example.com" none with
  | .ok p => p.1
  | .error _ => ⟨"", "", "", 0, "", [], defaultGroupSettings⟩

/-- `c2Group0` after alice adds bob with role owner. -/
def c2Group1 : Group :=
  applyAddMember c2Group0 101 "bob#example.com" "alice#example.com" "owner"

/-- A group with an owner, a member and an admin, under default settings. -/
def c7Group : Group :=
  ⟨"team#example.com", "Team", "", 100, "alice#example.com",
    [("alice#example.com", ⟨"alice#example.com", "owner", 100, "", "active"⟩),
     ("bob#example.com", ⟨"bob#example.com", "member", 101, "alice#example.com", "active"⟩),
     ("carol#example.com", ⟨"carol#example.com", "admin", 102, "alice#example.com", "active"⟩)],
    defaultGroupSettings⟩

/-- A fixed 32-byte Ed25519 public key (byte values 0 through 31). -/
def demoPub : List Nat := List.range 32

/-- The matching 64-byte private key: a fixed 32-byte seed followed by the
public key, which is how crypto/ed25519 lays private keys out. -/
def demoPriv : List Nat := List.replicate 32 7 ++ demoPub

/-- A fixed signing key pair. -/
def demoKeyPair : KeyPair := ⟨demoPriv, demoPub⟩

/-- A builder for `from alice, to bob, body "hi"` at a fixed time. -/
def c3Builder : MessageBuilder :=
  ⟨⟨"alice#example.com", ["bob#test.org"], [], "", "hi", "", 1700000000, "",
      none, "", false, ""⟩, none⟩

/-- The message `c3Builder` builds. -/
def c3Built : Message :=
  match build c3Builder 0 with
  | .ok m => m
  | .error _ => demoMsg

/-- A fixed encryption key pair. -/
def demoEncKeyPair : EncryptionKeyPair := ⟨11, 22⟩

/-- A manager knowing keys for both bob and carol. -/
def c5ManagerFull : EncryptionManager :=
  ⟨demoEncKeyPair, [("bob#test.org", 33), ("carol#test.org", 44)]⟩

/-- A manager knowing a key only for carol. -/
def c5ManagerPartial : EncryptionManager :=
  ⟨demoEncKeyPair, [("carol#test.org", 44)]⟩

/-- A builder to bob with cc carol, with an encryption manager attached. -/
def c5Builder (em : EncryptionManager) : MessageBuilder :=
  ⟨⟨"alice#example.com", ["bob#test.org"], ["carol#test.org"], "", "hi", "",
      1700000000, "", none, "", false, ""⟩, some em⟩

/-- An attachment manager with a 4-byte chunk limit. -/
def c6Manager : AttachmentManager :=
  { defaultAttachmentManager with maxChunkSize := 4 }

/-- Ten bytes, forcing three chunks under `c6Manager`. -/
def c6Data : List Nat := [10, 20, 30, 40, 50, 60, 70, 80, 90, 100]

/-- The attachment created from `c6Data`. -/
def c6Att : Attachment :=
  match createAttachmentFromData c6Manager 7 "blob.bin" c6Data "application/octet-stream" with
  | .ok a => a
  | .error _ => ⟨"", "", "", 0, "", 0, [], "", []⟩

/-- The attachment created from empty data under the default configuration. -/
def c6EmptyAtt : Attachment :=
  match createAttachmentFromData defaultAttachmentManager 7 "empty.txt" [] "text/plain" with
  | .ok a => a
  | .error _ => ⟨"", "", "", 0, "", 0, [], "", []⟩

/-- A correctly signed auth header for `POST /api/v1/messages` at time 5000. -/
def c8Header : AuthHeader :=
  generateAuthHeader demoKeyPair 5000 "abcdef0123456789" "post" "/api/v1/messages"

end Emsg

namespace Emsg

/-! # Theorems

Helper lemmas first, then one theorem per claim (with its witness or
counterexample where required). -/

/-- Looking up a key right after `mapInsert` yields the inserted value. -/
theorem lookup_mapInsert_self {v : Type} (l : List (String × v)) (k : String) (x : v) :
    List.lookup k (mapInsert l k x) = some x := by
  induction l with
  | nil => simp [mapInsert, List.lookup]
  | cons p t ih =>
    obtain ⟨k', x'⟩ := p
    by_cases h : k = k'
    · simp [mapInsert, h, List.lookup]
    · simp only [mapInsert, if_neg h, List.lookup]
      rw [beq_false_of_ne h]
      exact ih

/-- `updateReceipt` always stamps the current time. -/
theorem updateReceipt_timestamp (rs : RetryStrategy) (now : Int) (r : DeliveryReceipt)
    (st : DeliveryStatus) (err : String) :
    (updateReceipt rs now r st err).timestamp = now := by
  unfold updateReceipt
  dsimp only
  split_ifs <;> rfl

/-- With a nonnegative expiration window the expiration rewrite of
`updateReceipt` can never fire, because the window is measured from the
`Timestamp` field that the same call has just set to `now`: the resulting
status is exactly the requested one. -/
theorem updateReceipt_status_of_nonneg (rs : RetryStrategy) (now : Int)
    (r : DeliveryReceipt) (st : DeliveryStatus) (err : String)
    (hexp : 0 ≤ rs.expirationTime) :
    (updateReceipt rs now r st err).status = st := by
  unfold updateReceipt
  dsimp only
  split_ifs with h1 h2 h3 h4 h5 h6 h7 h8 h9 <;>
    first
      | rfl
      | (exfalso
         simp only [sub_self, Int.cast_zero] at *
         linarith)

/-- C1 (amended): `UpdateDeliveryStatus` does not guard on terminal
statuses. For any tracked receipt — in particular a terminal one — a
subsequent call (under a nonnegative expiration window, e.g. the default
24 h) succeeds and overwrites the status with exactly the requested status,
so delivered/failed/expired receipts do transition to whatever status the
caller supplies. -/
theorem c1_terminal_status_overwritten
    (dt : DeliveryTracker) (now : Int) (id : String) (st : DeliveryStatus) (err : String)
    (r : DeliveryReceipt) (h : List.lookup id dt.receipts = some r)
    (hterm : r.isTerminal = true)
    (hexp : 0 ≤ dt.retryStrategy.expirationTime) :
    ∃ dt', updateDeliveryStatus dt now id st err = .ok dt' ∧
      ∃ r', List.lookup id dt'.receipts = some r' ∧ r'.status = st := by
  refine ⟨{ dt with receipts :=
      (mapInsert dt.receipts id (updateReceipt dt.retryStrategy now r st err)) }, ?_,
    updateReceipt dt.retryStrategy now r st err,
    lookup_mapInsert_self _ _ _,
    updateReceipt_status_of_nonneg _ _ _ _ _ hexp⟩
  simp only [updateDeliveryStatus, h]

/-- C1 counterexample to the claim as stated: a receipt that has reached the
terminal status delivered is changed right back to pending by the next
`UpdateDeliveryStatus` call. -/
theorem c1_counterexample :
    ((List.lookup "m1" c1Tracker2.receipts).map (fun r => r.isTerminal) = some true) ∧
    (updateDeliveryStatus c1Tracker2 1002 "m1" .pending "").isOk = true ∧
    ((List.lookup "m1" c1Tracker3.receipts).map (fun r => r.status) = some .pending) ∧
    DeliveryStatus.pending ≠ DeliveryStatus.delivered := by
  refine ⟨by decide, by decide, by decide, by decide⟩

/-- C1 witness: the amended theorem applied to the concrete delivered
receipt of `c1Tracker2`. -/
theorem c1_witness :
    ∃ dt', updateDeliveryStatus c1Tracker2 1002 "m1" .pending "" = .ok dt' ∧
      ∃ r', List.lookup "m1" dt'.receipts = some r' ∧ r'.status = .pending :=
  c1_terminal_status_overwritten c1Tracker2 1002 "m1" .pending ""
    ⟨"m1", "bob#test.org", .delivered, 1001, 0, 0, 0, ""⟩
    (by decide) (by decide) (by decide)

/-- C9 (confirmed): `TrackMessage` reads `msg.To[0]` unconditionally. For a
message with a nonempty recipient list it stores a pending receipt for the
first recipient, keyed by the message id; for an empty list the Go
expression `msg.To[0]` panics with an index-out-of-range error, rendered
here as `none`. -/
theorem c9_trackMessage_reads_first_recipient
    (dt : DeliveryTracker) (now : Int) (msg : Message) :
    (msg.to_ = [] → trackMessage dt now msg = none) ∧
    (∀ r0 rest, msg.to_ = r0 :: rest →
      ∃ rec dt', trackMessage dt now msg = some (rec, dt') ∧
        rec.recipient = r0 ∧ rec.status = .pending ∧
        rec.messageId = msg.messageId ∧ rec.timestamp = now ∧
        List.lookup msg.messageId dt'.receipts = some rec) := by
  constructor
  · intro h
    simp [trackMessage, h]
  · intro r0 rest h
    refine ⟨⟨msg.messageId, r0, .pending, now, 0, 0, 0, ""⟩,
      { dt with receipts :=
        (mapInsert dt.receipts msg.messageId ⟨msg.messageId, r0, .pending, now, 0, 0, 0, ""⟩) },
      ?_, rfl, rfl, rfl, rfl, lookup_mapInsert_self _ _ _⟩
    simp [trackMessage, h]

/-- C9 witness: the theorem applied to a message without recipients (the
panic case) and to `demoMsg` (recipient `bob#test.org`). -/
theorem c9_witness :
    trackMessage (newDeliveryTracker none) 1000 demoMsgNoTo = none ∧
    ∃ rec dt', trackMessage (newDeliveryTracker none) 1000 demoMsg = some (rec, dt') ∧
      rec.recipient = "bob#test.org" ∧ rec.status = .pending ∧
      rec.messageId = demoMsg.messageId ∧ rec.timestamp = 1000 ∧
      List.lookup demoMsg.messageId dt'.receipts = some rec :=
  ⟨(c9_trackMessage_reads_first_recipient (newDeliveryTracker none) 1000 demoMsgNoTo).1 rfl,
   (c9_trackMessage_reads_first_recipient (newDeliveryTracker none) 1000 demoMsg).2
     "bob#test.org" [] rfl⟩

/-- C10 (confirmed): inside `UpdateDeliveryStatus` the expiration check
compares the window against the `Timestamp` field the same call has just
refreshed to `now`, so for every positive expiration window a successful
update stores exactly the requested status (the expired rewrite is
unreachable) with `Timestamp = now`; receipts age out only through
`CleanupExpiredReceipts`, which filters on `now − Timestamp`, i.e. time
since the last status update, not since creation. -/
theorem c10_expiry_measured_from_last_update
    (dt : DeliveryTracker) (now : Int) (id : String) (st : DeliveryStatus) (err : String)
    (hexp : 0 < dt.retryStrategy.expirationTime) :
    (∀ dt', updateDeliveryStatus dt now id st err = .ok dt' →
      ∃ r', List.lookup id dt'.receipts = some r' ∧ r'.status = st ∧ r'.timestamp = now) ∧
    (cleanupExpiredReceipts dt now).1.receipts =
      dt.receipts.filter
        (fun p => ¬ (((now - p.2.timestamp : Int) : Rat) > dt.retryStrategy.expirationTime)) := by
  constructor
  · intro dt' h
    unfold updateDeliveryStatus at h
    cases hl : List.lookup id dt.receipts with
    | none =>
      rw [hl] at h
      exact absurd h (by simp)
    | some r =>
      rw [hl] at h
      simp only [Except.ok.injEq] at h
      subst h
      exact ⟨updateReceipt dt.retryStrategy now r st err,
        lookup_mapInsert_self _ _ _,
        updateReceipt_status_of_nonneg _ _ _ _ _ (le_of_lt hexp),
        updateReceipt_timestamp _ _ _ _ _⟩
  · rfl

/-- C10 witness: the theorem applied to the tracker holding the pending
receipt for `demoMsg`, updated to delivered at time 1001. -/
theorem c10_witness :
    (∃ r', List.lookup "m1" c1Tracker2.receipts = some r' ∧
      r'.status = .delivered ∧ r'.timestamp = 1001) ∧
    (cleanupExpiredReceipts c1Tracker1 1001).1.receipts =
      c1Tracker1.receipts.filter
        (fun p => ¬ (((1001 - p.2.timestamp : Int) : Rat) >
          c1Tracker1.retryStrategy.expirationTime)) :=
  ⟨(c10_expiry_measured_from_last_update c1Tracker1 1001 "m1" .delivered "" (by decide)).1
      c1Tracker2 rfl,
   (c10_expiry_measured_from_last_update c1Tracker1 1001 "m1" .delivered "" (by decide)).2⟩

/-- Erasing a binding whose value fails the predicate leaves `countP`
unchanged. -/
theorem countP_eraseKey {v : Type} (p : String × v → Bool) (l : List (String × v))
    (k : String) (x : v) (hl : List.lookup k l = some x) (hx : p (k, x) = false) :
    (eraseKey l k).countP p = l.countP p := by
  induction l with
  | nil => simp at hl
  | cons q t ih =>
    obtain ⟨k', x'⟩ := q
    by_cases h : k = k'
    · subst h
      simp only [List.lookup, beq_self_eq_true] at hl
      obtain rfl : x' = x := by simpa using hl
      simp [eraseKey, List.countP_cons, hx]
    · simp only [List.lookup, beq_false_of_ne h] at hl
      simp only [eraseKey, if_neg h, List.countP_cons, ih hl]

/-- Replacing a binding by another one, both of which fail the predicate,
leaves `countP` unchanged. -/
theorem countP_mapInsert {v : Type} (p : String × v → Bool) (l : List (String × v))
    (k : String) (x xold : v) (hl : List.lookup k l = some xold)
    (hold : p (k, xold) = false) (hx : p (k, x) = false) :
    (mapInsert l k x).countP p = l.countP p := by
  induction l with
  | nil => simp at hl
  | cons q t ih =>
    obtain ⟨k', x'⟩ := q
    by_cases h : k = k'
    · subst h
      simp only [List.lookup, beq_self_eq_true] at hl
      obtain rfl : x' = xold := by simpa using hl
      simp [mapInsert, List.countP_cons, hx, hold]
    · simp only [List.lookup, beq_false_of_ne h] at hl
      simp only [mapInsert, if_neg h, List.countP_cons, ih hl]

/-- A successful `RemoveMember` never removes an owner, so the owner count
is preserved (the error outcome leaves the group untouched anyway). -/
theorem removeMember_ownerCount (g : Group) (addr req : String) :
    ownerCount (applyRemoveMember g addr req) = ownerCount g := by
  unfold applyRemoveMember
  cases hrm : removeMember g addr req with
  | error e => rfl
  | ok g' =>
    unfold removeMember at hrm
    split at hrm
    · exact absurd hrm (by simp)
    · split at hrm
      · exact absurd hrm (by simp)
      · rename_i member hmem
        split at hrm
        · exact absurd hrm (by simp)
        · rename_i hro
          split at hrm
          · exact absurd hrm (by simp)
          · split at hrm
            · exact absurd hrm (by simp)
            · simp only [Except.ok.injEq] at hrm
              subst hrm
              exact countP_eraseKey _ _ _ _ hmem (by simp [hro])

/-- A successful `ChangeRole` neither starts from nor assigns the owner
role, so the owner count is preserved. -/
theorem changeRole_ownerCount (g : Group) (addr req nr : String) :
    ownerCount (applyChangeRole g addr req nr) = ownerCount g := by
  unfold applyChangeRole
  cases hcr : changeRole g addr req nr with
  | error e => rfl
  | ok g' =>
    unfold changeRole at hcr
    split at hcr
    · exact absurd hcr (by simp)
    · split at hcr
      · exact absurd hcr (by simp)
      · rename_i member hmem
        split at hcr
        · exact absurd hcr (by simp)
        · split at hcr
          · exact absurd hcr (by simp)
          · split at hcr
            · exact absurd hcr (by simp)
            · rename_i hor
              simp only [Except.ok.injEq] at hcr
              subst hcr
              rw [not_or] at hor
              unfold ownerCount
              exact countP_mapInsert _ _ _ _ _ hmem
                (by simpa using hor.1) (by simpa using hor.2)

/-- C2 (amended): `CreateGroup` establishes exactly one owner (the creator),
and `RemoveMember` and `ChangeRole` preserve the number of owners — the
owner can be neither removed nor changed, and no one can be promoted to
owner through `ChangeRole`. `AddMember`, however, performs no role check, so
an inviter holding the add_member permission can add a second member with
role owner: the one-owner invariant is not preserved by `AddMember`. -/
theorem c2_owner_count
    (gm : List (String × Group)) (now : Int) (id name createdBy : String)
    (settings : Option GroupSettings) :
    (∀ g' gm', createGroup gm now id name createdBy settings = .ok (g', gm') →
      ownerCount g' = 1) ∧
    (∀ g addr req, ownerCount (applyRemoveMember g addr req) = ownerCount g) ∧
    (∀ g addr req nr, ownerCount (applyChangeRole g addr req nr) = ownerCount g) ∧
    (ownerCount c2Group0 = 1 ∧ ownerCount c2Group1 = 2) := by
  refine ⟨?_, fun g addr req => removeMember_ownerCount g addr req,
    fun g addr req nr => changeRole_ownerCount g addr req nr, by decide, by decide⟩
  intro g' gm' h
  unfold createGroup at h
  split at h
  · exact absurd h (by simp)
  · simp only [Except.ok.injEq, Prod.mk.injEq] at h
    obtain ⟨rfl, -⟩ := h
    simp [ownerCount]

/-- C2 counterexample to the claim as stated: starting from a freshly created
group (one owner), a single `AddMember` call made by the owner with role
owner succeeds and yields a reachable state with two owners. -/
theorem c2_counterexample :
    (createGroup [] 100 "team#example.com" "Team" "alice#example.com" none).isOk = true ∧
    ownerCount c2Group0 = 1 ∧
    (addMember c2Group0 101 "bob#example.com" "alice#example.com" "owner").isOk = true ∧
    applyAddMember c2Group0 101 "bob#example.com" "alice#example.com" "owner" = c2Group1 ∧
    ownerCount c2Group1 = 2 := by
  refine ⟨by decide, by decide, by decide, rfl, by decide⟩

/-- C2 witness: the amended theorem applied to the concrete creation of
`c2Group0` and to concrete remove/change calls on `c2Group1`. -/
theorem c2_witness :
    ownerCount c2Group0 = 1 ∧
    ownerCount (applyRemoveMember c2Group1 "bob#example.com" "alice#example.com") =
      ownerCount c2Group1 ∧
    ownerCount (applyChangeRole c2Group1 "bob#example.com" "alice#example.com" "member") =
      ownerCount c2Group1 ∧
    ownerCount c2Group1 = 2 := by
  have h := c2_owner_count [] 100 "team#example.com" "Team" "alice#example.com" none
  exact ⟨h.1 c2Group0 [("team#example.com", c2Group0)] rfl,
    h.2.1 c2Group1 "bob#example.com" "alice#example.com",
    h.2.2.1 c2Group1 "bob#example.com" "alice#example.com" "member",
    h.2.2.2.2⟩

/-- C7 (confirmed): whenever the acting member's hierarchy level is at most
the target member's level (owner 5, admin 4, moderator 3, member 2, guest 1,
anything else 0), both `RemoveMember` and `ChangeRole` — for any requested
new role — return an error and leave the member map unchanged. -/
theorem c7_lower_level_cannot_modify
    (g : Group) (actorAddr targetAddr : String) (am tm : GroupMember) (newRole : String)
    (ha : List.lookup actorAddr g.members = some am)
    (ht : List.lookup targetAddr g.members = some tm)
    (hlev : roleLevel am.role ≤ roleLevel tm.role) :
    (removeMember g targetAddr actorAddr).isOk = false ∧
    applyRemoveMember g targetAddr actorAddr = g ∧
    (changeRole g targetAddr actorAddr newRole).isOk = false ∧
    applyChangeRole g targetAddr actorAddr newRole = g := by
  have hcm : canModifyRole am.role tm.role = false := by
    simp only [canModifyRole, decide_eq_false_iff_not, not_lt]
    exact hlev
  have hrm : (removeMember g targetAddr actorAddr).isOk = false := by
    unfold removeMember
    by_cases hp : hasPermission g actorAddr "remove_member"
    · rw [if_neg (not_not_intro hp)]
      simp only [ht]
      by_cases hro : tm.role = "owner"
      · rw [if_pos hro]; rfl
      · rw [if_neg hro]
        simp only [ha]
        rw [if_pos (by simp [hcm])]
        rfl
    · rw [if_pos hp]; rfl
  have hcr : (changeRole g targetAddr actorAddr newRole).isOk = false := by
    unfold changeRole
    by_cases hp : hasPermission g actorAddr "change_role"
    · rw [if_neg (not_not_intro hp)]
      simp only [ht, ha]
      rw [if_pos (by simp [hcm])]
      rfl
    · rw [if_pos hp]; rfl
  refine ⟨hrm, ?_, hcr, ?_⟩
  · unfold applyRemoveMember
    cases h : removeMember g targetAddr actorAddr with
    | error e => rfl
    | ok g' => rw [h] at hrm; simp [Except.isOk, Except.toBool] at hrm
  · unfold applyChangeRole
    cases h : changeRole g targetAddr actorAddr newRole with
    | error e => rfl
    | ok g' => rw [h] at hcr; simp [Except.isOk, Except.toBool] at hcr

/-- C7 witness: in `c7Group`, bob (member, level 2) can neither remove nor
change the role of carol (admin, level 4). -/
theorem c7_witness :
    (removeMember c7Group "carol#example.com" "bob#example.com").isOk = false ∧
    applyRemoveMember c7Group "carol#example.com" "bob#example.com" = c7Group ∧
    (changeRole c7Group "carol#example.com" "bob#example.com" "guest").isOk = false ∧
    applyChangeRole c7Group "carol#example.com" "bob#example.com" "guest" = c7Group :=
  c7_lower_level_cannot_modify c7Group "bob#example.com" "carol#example.com"
    ⟨"bob#example.com", "member", 101, "alice#example.com", "active"⟩
    ⟨"carol#example.com", "admin", 102, "alice#example.com", "active"⟩
    "guest" (by decide) (by decide) (by decide)

/-- The alphabet value table inverts the alphabet on 6-bit values. -/
theorem b64CharVal_b64Char : ∀ n < 64, b64CharVal (b64Char n) = some n := by decide

/-- No alphabet character is the padding character. -/
theorem b64Char_ne_pad : ∀ n < 64, b64Char n ≠ '=' := by decide

/-- Decoding a full 4-character alphabet group yields its three bytes in
front of the decoded remainder. -/
theorem b64Decode_group (v1 v2 v3 v4 : Nat) (h1 : v1 < 64) (h2 : v2 < 64)
    (h3 : v3 < 64) (h4 : v4 < 64) (rest : List Char) :
    b64Decode (b64Char v1 :: b64Char v2 :: b64Char v3 :: b64Char v4 :: rest) =
      (b64Decode rest).map
        (fun t => (v1 * 4 + v2 / 16) :: (v2 % 16 * 16 + v3 / 4) ::
          (v3 % 4 * 64 + v4) :: t) := by
  conv_lhs => unfold b64Decode
  rw [b64CharVal_b64Char v1 h1, b64CharVal_b64Char v2 h2]
  dsimp only
  rw [if_neg (b64Char_ne_pad v3 h3)]
  rw [b64CharVal_b64Char v3 h3]
  dsimp only
  rw [if_neg (b64Char_ne_pad v4 h4)]
  rw [b64CharVal_b64Char v4 h4]

/-- Decoding a final group carrying one byte. -/
theorem b64Decode_tail1 (v1 v2 : Nat) (h1 : v1 < 64) (h2 : v2 < 64) :
    b64Decode [b64Char v1, b64Char v2, '=', '='] = some [v1 * 4 + v2 / 16] := by
  unfold b64Decode
  rw [b64CharVal_b64Char v1 h1, b64CharVal_b64Char v2 h2]
  dsimp only
  rw [if_pos rfl]
  rw [if_pos ⟨rfl, rfl⟩]

/-- Decoding a final group carrying two bytes. -/
theorem b64Decode_tail2 (v1 v2 v3 : Nat) (h1 : v1 < 64) (h2 : v2 < 64) (h3 : v3 < 64) :
    b64Decode [b64Char v1, b64Char v2, b64Char v3, '='] =
      some [v1 * 4 + v2 / 16, v2 % 16 * 16 + v3 / 4] := by
  unfold b64Decode
  rw [b64CharVal_b64Char v1 h1, b64CharVal_b64Char v2 h2]
  dsimp only
  rw [if_neg (b64Char_ne_pad v3 h3)]
  rw [b64CharVal_b64Char v3 h3]
  dsimp only
  rw [if_pos rfl]
  rw [if_pos rfl]

/-- Standard base64 decoding inverts encoding on byte lists. -/
theorem b64Decode_b64Encode : ∀ (bytes : List Nat), (∀ x ∈ bytes, x < 256) →
    b64Decode (b64Encode bytes) = some bytes := by
  have key : ∀ (fuel : Nat) (bytes : List Nat), bytes.length ≤ fuel →
      (∀ x ∈ bytes, x < 256) → b64Decode (b64Encode bytes) = some bytes := by
    intro fuel
    induction fuel with
    | zero =>
      intro bytes hle _
      have hnil : bytes = [] := List.length_eq_zero.mp (Nat.le_zero.mp hle)
      subst hnil
      rfl
    | succ n ih =>
      intro bytes hle hb
      cases bytes with
      | nil => rfl
      | cons a t1 =>
        cases t1 with
        | nil =>
          have ha : a < 256 := hb a (by simp)
          show b64Decode [b64Char (a / 4), b64Char (a % 4 * 16), '=', '='] = some [a]
          rw [b64Decode_tail1 (a / 4) (a % 4 * 16) (by omega) (by omega)]
          have e1 : a / 4 * 4 + a % 4 * 16 / 16 = a := by omega
          rw [e1]
        | cons b t2 =>
          cases t2 with
          | nil =>
            have ha : a < 256 := hb a (by simp)
            have hbb : b < 256 := hb b (by simp)
            show b64Decode [b64Char (a / 4), b64Char (a % 4 * 16 + b / 16),
              b64Char (b % 16 * 4), '='] = some [a, b]
            rw [b64Decode_tail2 (a / 4) (a % 4 * 16 + b / 16) (b % 16 * 4)
              (by omega) (by omega) (by omega)]
            have e1 : a / 4 * 4 + (a % 4 * 16 + b / 16) / 16 = a := by omega
            have e2 : (a % 4 * 16 + b / 16) % 16 * 16 + b % 16 * 4 / 4 = b := by omega
            rw [e1, e2]
          | cons d rest =>
            have ha : a < 256 := hb a (by simp)
            have hbb : b < 256 := hb b (by simp)
            have hd : d < 256 := hb d (by simp)
            show b64Decode (b64Char (a / 4) :: b64Char (a % 4 * 16 + b / 16) ::
                b64Char (b % 16 * 4 + d / 64) :: b64Char (d % 64) :: b64Encode rest) =
              some (a :: b :: d :: rest)
            rw [b64Decode_group (a / 4) (a % 4 * 16 + b / 16) (b % 16 * 4 + d / 64) (d % 64)
              (by omega) (by omega) (by omega) (by omega)]
            have hlen : rest.length ≤ n := by
              simp only [List.length_cons] at hle
              omega
            rw [ih rest hlen (fun x hx => hb x (by simp [hx]))]
            show some ((a / 4 * 4 + (a % 4 * 16 + b / 16) / 16) ::
              ((a % 4 * 16 + b / 16) % 16 * 16 + (b % 16 * 4 + d / 64) / 4) ::
              ((b % 16 * 4 + d / 64) % 4 * 64 + d % 64) :: rest) = some (a :: b :: d :: rest)
            have e1 : a / 4 * 4 + (a % 4 * 16 + b / 16) / 16 = a := by omega
            have e2 : (a % 4 * 16 + b / 16) % 16 * 16 + (b % 16 * 4 + d / 64) / 4 = b := by
              omega
            have e3 : (b % 16 * 4 + d / 64) % 4 * 64 + d % 64 = d := by omega
            rw [e1, e2, e3]
  intro bytes h
  exact key bytes.length bytes le_rfl h

/-- Loading a key pair's base64-encoded public key returns exactly its
public key bytes (when those are 32 byte values, as for every Ed25519 key). -/
theorem loadPublicKeyFromBase64_publicKeyBase64 (kp : KeyPair)
    (hbytes : ∀ x ∈ kp.publicKey, x < 256) (hlen : kp.publicKey.length = 32) :
    loadPublicKeyFromBase64 kp.publicKeyBase64 = .ok kp.publicKey := by
  unfold loadPublicKeyFromBase64 KeyPair.publicKeyBase64 b64StdEncode
  rw [show (String.mk (b64Encode kp.publicKey)).data = b64Encode kp.publicKey from rfl]
  rw [b64Decode_b64Encode kp.publicKey hbytes]
  dsimp only
  rw [if_neg (by omega)]

/-- C8 (confirmed): a header whose public key field loads (valid base64 of a
32-byte key) and that is correctly signed over the reconstructed payload
`METHOD:PATH:TIMESTAMP:NONCE` is accepted exactly when the clock skew is at
most 300 seconds; at 301 seconds or more the verifier rejects with the
timestamp error. -/
theorem c8_auth_timestamp_window
    (now : Int) (h : AuthHeader) (kp : KeyPair) (method path : String)
    (hpk : h.publicKey = kp.publicKeyBase64)
    (hkp : kp.publicKey = ed25519PubOfPriv kp.privateKey)
    (hbytes : ∀ x ∈ kp.publicKey, x < 256)
    (hlen : kp.publicKey.length = 32)
    (hsig : h.signature = KeyPair.sign kp
      (AuthPayload.render ⟨goToUpper method, path, h.timestamp, h.nonce⟩)) :
    (goAbs (now - h.timestamp) ≤ 300 → verifyAuthHeader now h method path = .ok ()) ∧
    (301 ≤ goAbs (now - h.timestamp) →
      verifyAuthHeader now h method path = .error "timestamp too old or too far in future") := by
  have hload : loadPublicKeyFromBase64 h.publicKey = .ok kp.publicKey := by
    rw [hpk]
    exact loadPublicKeyFromBase64_publicKeyBase64 kp hbytes hlen
  have hver : ed25519Verify kp.publicKey
      (AuthPayload.render ⟨goToUpper method, path, h.timestamp, h.nonce⟩) h.signature = true := by
    rw [hsig]
    simp [ed25519Verify, KeyPair.sign, ed25519SignBytes, ed25519PubOfPriv, hkp]
  constructor
  · intro hle
    unfold verifyAuthHeader
    rw [hload]
    dsimp only
    rw [if_neg (not_not_intro hver)]
    rw [if_neg (by omega)]
  · intro hge
    unfold verifyAuthHeader
    rw [hload]
    dsimp only
    rw [if_neg (not_not_intro hver)]
    rw [if_pos (by omega)]

set_option maxRecDepth 8000 in
set_option maxHeartbeats 1000000 in
/-- C8 witness: the theorem applied to `c8Header` (timestamp 5000, signed by
the fixed key pair) at clock times 5300 (skew exactly 300, accepted) and
5301 (skew 301, rejected). -/
theorem c8_witness :
    verifyAuthHeader 5300 c8Header "post" "/api/v1/messages" = .ok () ∧
    verifyAuthHeader 5301 c8Header "post" "/api/v1/messages" =
      .error "timestamp too old or too far in future" :=
  ⟨(c8_auth_timestamp_window 5300 c8Header demoKeyPair "post" "/api/v1/messages"
      rfl (by decide) (by decide) (by decide) rfl).1 (by decide),
   (c8_auth_timestamp_window 5301 c8Header demoKeyPair "post" "/api/v1/messages"
      rfl (by decide) (by decide) (by decide) rfl).2 (by decide)⟩

/-- Folding the "last match" accumulator from an arbitrary start: the result
is the last matching value when one exists, else the start. -/
theorem lastVal_foldl_init (pred : String → Bool) (l : List (String × String))
    (a : Option String) :
    l.foldl (fun acc p => if pred p.1 then some p.2 else acc) a =
      (lastVal pred l).elim a some := by
  induction l generalizing a with
  | nil => simp [lastVal]
  | cons x t ih =>
    rw [List.foldl_cons, ih]
    have hx : lastVal pred (x :: t) =
        (lastVal pred t).elim (if pred x.1 then some x.2 else none) some := by
      unfold lastVal
      rw [List.foldl_cons]
      exact ih _
    rw [hx]
    cases h : lastVal pred t with
    | some v => rfl
    | none =>
      by_cases hp : pred x.1
      · simp [hp]
      · simp [hp]

/-- `lastVal` over a cons: the tail match wins when present, otherwise the
head pair decides. -/
theorem lastVal_cons (pred : String → Bool) (x : String × String)
    (l : List (String × String)) :
    lastVal pred (x :: l) =
      (lastVal pred l).elim (if pred x.1 then some x.2 else none) some := by
  unfold lastVal
  rw [List.foldl_cons]
  exact lastVal_foldl_init pred l _

/-- The `url` field the key-value fold produces is the value of the last
`url` pair, defaulting to the accumulator field. -/
theorem foldl_kvStep_url (parts : List String) (acc : EMSGServerInfo) :
    (parts.foldl kvStep acc).url =
      (lastVal (fun k => k = "url") (kvPairsList parts)).getD acc.url := by
  induction parts generalizing acc with
  | nil => simp [kvPairsList, lastVal]
  | cons p t ih =>
    rw [List.foldl_cons, ih (kvStep acc p)]
    cases hsp : goSplitN2 p with
    | none =>
      have h1 : kvPairsList (p :: t) = kvPairsList t := by
        simp [kvPairsList, List.filterMap_cons, hsp]
      have h2 : (kvStep acc p).url = acc.url := by simp [kvStep, hsp]
      rw [h1, h2]
    | some kv =>
      have h1 : kvPairsList (p :: t) = (goToLower (goTrim kv.1), goTrim kv.2) :: kvPairsList t := by
        simp [kvPairsList, List.filterMap_cons, hsp]
      rw [h1, lastVal_cons]
      cases hlast : lastVal (fun k => k = "url") (kvPairsList t) with
      | some v => simp
      | none =>
        simp only [Option.elim]
        by_cases hk : goToLower (goTrim kv.1) = "url"
        · have h2 : (kvStep acc p).url = goTrim kv.2 := by simp [kvStep, hsp, hk]
          simp [h2, hk]
        · have h2 : (kvStep acc p).url = acc.url := by
            simp only [kvStep, hsp]
            split_ifs <;> rfl
          simp [h2, hk]

/-- The `publicKey` field the key-value fold produces is the value of the
last `pubkey`/`publickey` pair, defaulting to the accumulator field. -/
theorem foldl_kvStep_pubkey (parts : List String) (acc : EMSGServerInfo) :
    (parts.foldl kvStep acc).publicKey =
      (lastVal (fun k => k = "pubkey" ∨ k = "publickey") (kvPairsList parts)).getD
        acc.publicKey := by
  induction parts generalizing acc with
  | nil => simp [kvPairsList, lastVal]
  | cons p t ih =>
    rw [List.foldl_cons, ih (kvStep acc p)]
    cases hsp : goSplitN2 p with
    | none =>
      have h1 : kvPairsList (p :: t) = kvPairsList t := by
        simp [kvPairsList, List.filterMap_cons, hsp]
      have h2 : (kvStep acc p).publicKey = acc.publicKey := by simp [kvStep, hsp]
      rw [h1, h2]
    | some kv =>
      have h1 : kvPairsList (p :: t) = (goToLower (goTrim kv.1), goTrim kv.2) :: kvPairsList t := by
        simp [kvPairsList, List.filterMap_cons, hsp]
      rw [h1, lastVal_cons]
      cases hlast : lastVal (fun k => k = "pubkey" ∨ k = "publickey") (kvPairsList t) with
      | some v => simp
      | none =>
        simp only [Option.elim]
        by_cases hk : goToLower (goTrim kv.1) = "pubkey" ∨ goToLower (goTrim kv.1) = "publickey"
        · have hnu : ¬ goToLower (goTrim kv.1) = "url" := by
            rcases hk with h | h <;> simp [h]
          have h2 : (kvStep acc p).publicKey = goTrim kv.2 := by
            simp [kvStep, hsp, hnu, hk]
          simp [h2, hk]
        · have h2 : (kvStep acc p).publicKey = acc.publicKey := by
            simp only [kvStep, hsp]
            split_ifs <;> rfl
          simp [h2, hk]

/-- The `version` field the key-value fold produces is the value of the last
`version` pair, defaulting to the accumulator field. -/
theorem foldl_kvStep_version (parts : List String) (acc : EMSGServerInfo) :
    (parts.foldl kvStep acc).version =
      (lastVal (fun k => k = "version") (kvPairsList parts)).getD acc.version := by
  induction parts generalizing acc with
  | nil => simp [kvPairsList, lastVal]
  | cons p t ih =>
    rw [List.foldl_cons, ih (kvStep acc p)]
    cases hsp : goSplitN2 p with
    | none =>
      have h1 : kvPairsList (p :: t) = kvPairsList t := by
        simp [kvPairsList, List.filterMap_cons, hsp]
      have h2 : (kvStep acc p).version = acc.version := by simp [kvStep, hsp]
      rw [h1, h2]
    | some kv =>
      have h1 : kvPairsList (p :: t) = (goToLower (goTrim kv.1), goTrim kv.2) :: kvPairsList t := by
        simp [kvPairsList, List.filterMap_cons, hsp]
      rw [h1, lastVal_cons]
      cases hlast : lastVal (fun k => k = "version") (kvPairsList t) with
      | some v => simp
      | none =>
        simp only [Option.elim]
        by_cases hk : goToLower (goTrim kv.1) = "version"
        · have hnu : ¬ goToLower (goTrim kv.1) = "url" := by simp [hk]
          have hnp : ¬ (goToLower (goTrim kv.1) = "pubkey" ∨ goToLower (goTrim kv.1) = "publickey") := by
            simp [hk]
          have h2 : (kvStep acc p).version = goTrim kv.2 := by
            simp [kvStep, hsp, hnu, hnp, hk]
          simp [h2, hk]
        · have h2 : (kvStep acc p).version = acc.version := by
            simp only [kvStep, hsp]
            split_ifs <;> rfl
          simp [h2, hk]

/-- C4 (amended): when `parseKeyValueRecord` succeeds, each resulting field
(`url`; `pubkey`, matching key `pubkey` or `publickey`; `version`; keys
matched case-insensitively after trimming) carries the value of the LAST
occurrence of its key among the space-separated pairs — each duplicate
overwrites the previous assignment, so the last matching key wins, not the
first. -/
theorem c4_last_key_wins (record : String) (info : EMSGServerInfo)
    (h : parseKeyValueRecord record = .ok info) :
    info.url = (lastVal (fun k => k = "url") (kvPairs record)).getD "" ∧
    info.publicKey =
      (lastVal (fun k => k = "pubkey" ∨ k = "publickey") (kvPairs record)).getD "" ∧
    info.version = (lastVal (fun k => k = "version") (kvPairs record)).getD "" := by
  unfold parseKeyValueRecord at h
  dsimp only at h
  split at h
  · exact absurd h (by simp)
  · split at h
    · exact absurd h (by simp)
    · simp only [Except.ok.injEq] at h
      subst h
      exact ⟨foldl_kvStep_url _ _, foldl_kvStep_pubkey _ _, foldl_kvStep_version _ _⟩

/-- C4 counterexample to the claim as stated: on a record with two `url=`
pairs the parser returns the second value, not the first. -/
theorem c4_counterexample :
    parseKeyValueRecord "url=http://a.example url=http://b.example" =
      .ok ⟨"http://b.example", "", ""⟩ ∧
    ("http://b.example" : String) ≠ "http://a.example" :=
  ⟨rfl, by decide⟩

/-- C4 witness: the amended theorem applied to the duplicate-key record. -/
theorem c4_witness :
    (EMSGServerInfo.url ⟨"http://b.example", "", ""⟩ =
      (lastVal (fun k => k = "url")
        (kvPairs "url=http://a.example url=http://b.example")).getD "") ∧
    (EMSGServerInfo.publicKey ⟨"http://b.example", "", ""⟩ =
      (lastVal (fun k => k = "pubkey" ∨ k = "publickey")
        (kvPairs "url=http://a.example url=http://b.example")).getD "") ∧
    (EMSGServerInfo.version ⟨"http://b.example", "", ""⟩ =
      (lastVal (fun k => k = "version")
        (kvPairs "url=http://a.example url=http://b.example")).getD "") :=
  c4_last_key_wins "url=http://a.example url=http://b.example"
    ⟨"http://b.example", "", ""⟩ rfl

/-- Concatenating the data of the chunks produced by `chunksFrom` restores
the input bytes (for a positive chunk size). -/
theorem chunksFrom_flatten (csize : Nat) (hcs : 0 < csize) :
    ∀ (n : Nat) (data : List Nat) (i : Nat), data.length ≤ n →
      ((chunksFrom csize data i).map (fun c => c.data)).flatten = data := by
  intro n
  induction n with
  | zero =>
    intro data i hle
    have hdata : data = [] := List.length_eq_zero.mp (Nat.le_zero.mp hle)
    subst hdata
    rw [chunksFrom]
    simp
  | succ n ih =>
    intro data i hle
    rw [chunksFrom]
    split
    · rename_i hcond
      rcases hcond with hc | hd
      · omega
      · simp [hd]
    · rename_i hcond
      simp only [List.map_cons, List.flatten_cons]
      rw [ih (data.drop csize) (i + 1) (by simp [List.length_drop]; omega)]
      exact List.take_append_drop csize data

/-- Every chunk `chunksFrom` produces holds at most `csize` bytes. -/
theorem chunksFrom_size_le (csize : Nat) :
    ∀ (n : Nat) (data : List Nat) (i : Nat), data.length ≤ n →
      ∀ c ∈ chunksFrom csize data i, c.data.length ≤ csize := by
  intro n
  induction n with
  | zero =>
    intro data i hle
    have hdata : data = [] := List.length_eq_zero.mp (Nat.le_zero.mp hle)
    subst hdata
    rw [chunksFrom]
    simp
  | succ n ih =>
    intro data i hle c hc
    rw [chunksFrom] at hc
    split at hc
    · simp at hc
    · rename_i hcond
      have hpos : 0 < csize := by
        rcases not_or.mp hcond with ⟨h1, -⟩
        omega
      simp only [List.mem_cons] at hc
      rcases hc with rfl | hc
      · simp [List.length_take]
      · exact ih (data.drop csize) (i + 1) (by simp [List.length_drop]; omega) c hc

/-- C6 (amended): for every attachment successfully created by
`CreateAttachmentFromData` from NONEMPTY data (under a positive
`max_chunk_size`), reassembling its content — the inline data, or the chunk
data concatenated in index order — yields exactly the input bytes, so the
reassembled length equals the `size` field and its digest equals the
`checksum` field, each chunk holds at most `max_chunk_size` bytes, and
`ValidateAttachment` succeeds. For EMPTY input the creation also succeeds
(the claim fails there): the attachment stores neither inline data nor
chunks, and `ValidateAttachment` rejects it — see the counterexample. -/
theorem c6_attachment_integrity
    (am : AttachmentManager) (now : Int) (name : String) (data : List Nat)
    (mimeType : String) (a : Attachment)
    (hchunk : 0 < am.maxChunkSize) (hdata : data ≠ [])
    (h : createAttachmentFromData am now name data mimeType = .ok a) :
    getAttachmentData a = .ok data ∧
    a.size = (data.length : Int) ∧
    a.checksum = calculateChecksum data ∧
    (∀ c ∈ a.chunks, (c.data.length : Int) ≤ am.maxChunkSize) ∧
    validateAttachment a = .ok () := by
  have hlen : 0 < data.length := List.length_pos.mpr hdata
  unfold createAttachmentFromData at h
  split at h
  · exact absurd h (by simp)
  · dsimp only at h
    generalize (if mimeType = "" then "application/octet-stream" else mimeType) = mt at h
    split at h
    · exact absurd h (by simp)
    · split at h
      · simp only [Except.ok.injEq] at h
        subst h
        refine ⟨?_, rfl, rfl, by simp, ?_⟩
        · simp [getAttachmentData, hlen]
        · simp [validateAttachment, hlen]
      · rename_i hbig
        simp only [Except.ok.injEq] at h
        subst h
        have hcs : 0 < am.maxChunkSize.toNat := by omega
        have hjoin : reassembleChunks (createChunks am data) = data := by
          unfold reassembleChunks createChunks
          exact chunksFrom_flatten am.maxChunkSize.toNat hcs data.length data 0 le_rfl
        have hchunks_ne : createChunks am data ≠ [] := by
          intro hnil
          rw [hnil] at hjoin
          exact hdata (by simpa [reassembleChunks] using hjoin.symm)
        have hclen : 0 < (createChunks am data).length := List.length_pos.mpr hchunks_ne
        refine ⟨?_, rfl, rfl, ?_, ?_⟩
        · simp [getAttachmentData, hjoin, hclen]
        · intro c hc
          have := chunksFrom_size_le am.maxChunkSize.toNat data.length data 0 le_rfl c hc
          omega
        · simp [validateAttachment, hjoin, hclen]

/-- C6 counterexample to the claim as stated: creation from empty data
succeeds, but `ValidateAttachment` rejects the result because it stores
neither inline data nor chunks. -/
theorem c6_counterexample :
    createAttachmentFromData defaultAttachmentManager 7 "empty.txt" ([] : List Nat)
      "text/plain" = .ok c6EmptyAtt ∧
    validateAttachment c6EmptyAtt = .error "attachment has no data" :=
  ⟨rfl, rfl⟩

/-- C6 witness: the amended theorem applied to a ten-byte blob under a
4-byte chunk limit (three chunks). -/
theorem c6_witness :
    getAttachmentData c6Att = .ok c6Data ∧
    c6Att.size = (c6Data.length : Int) ∧
    c6Att.checksum = calculateChecksum c6Data ∧
    (∀ c ∈ c6Att.chunks, (c.data.length : Int) ≤ c6Manager.maxChunkSize) ∧
    validateAttachment c6Att = .ok () :=
  c6_attachment_integrity c6Manager 7 "blob.bin" c6Data "application/octet-stream"
    c6Att (by decide) (by decide) rfl

/-- `hexVal` inverts `hexDigitChar` on hexadecimal digit values. -/
theorem hexVal_hexDigitChar : ∀ d < 16, hexVal (hexDigitChar d) = d := by decide

set_option maxHeartbeats 1000000 in
/-- The escape decoder reads back exactly the character `escChar` encoded. -/
theorem escDecode_escChar (c : Char) (r : List Char) :
    escDecode (escChar c ++ r) = some (c, r) := by
  unfold escChar
  split_ifs with h1 h2 h3 h4 h5 h6 h7 h8 h9 h10 h11
  · subst h1; rfl
  · subst h2; rfl
  · subst h3; rfl
  · subst h4; rfl
  · subst h5; rfl
  · show escDecode ('\\' :: 'u' :: '0' :: '0' :: hexDigitChar (c.toNat / 16) ::
        hexDigitChar (c.toNat % 16) :: r) = some (c, r)
    have hstep : escDecode ('\\' :: 'u' :: '0' :: '0' :: hexDigitChar (c.toNat / 16) ::
        hexDigitChar (c.toNat % 16) :: r) =
      some (Char.ofNat (((hexVal '0' * 16 + hexVal '0') * 16 +
        hexVal (hexDigitChar (c.toNat / 16))) * 16 +
        hexVal (hexDigitChar (c.toNat % 16))), r) := rfl
    rw [hstep, hexVal_hexDigitChar _ (by omega), hexVal_hexDigitChar _ (by omega)]
    have hv : ((hexVal '0' * 16 + hexVal '0') * 16 + c.toNat / 16) * 16 + c.toNat % 16 =
        c.toNat := by
      simp only [show hexVal '0' = 0 from rfl]
      omega
    rw [hv, Char.ofNat_toNat]
  · subst h7; rfl
  · subst h8; rfl
  · subst h9; rfl
  · have hc : c = Char.ofNat 8232 := by
      rw [← h10, Char.ofNat_toNat]
    subst hc; rfl
  · have hc : c = Char.ofNat 8233 := by
      rw [← h11, Char.ofNat_toNat]
    subst hc; rfl
  · show escDecode (c :: r) = some (c, r)
    unfold escDecode
    dsimp only
    rw [if_neg h2]

set_option maxHeartbeats 1000000 in
/-- `escChar` never produces the empty sequence. -/
theorem escChar_ne_nil (c : Char) : escChar c ≠ [] := by
  unfold escChar
  split_ifs <;> exact List.cons_ne_nil _ _

/-- Unique decodability: the JSON string escaping is injective. -/
theorem jsonEscape_inj : ∀ l1 l2 : List Char, jsonEscape l1 = jsonEscape l2 → l1 = l2 := by
  intro l1
  induction l1 with
  | nil =>
    intro l2 h
    cases l2 with
    | nil => rfl
    | cons c t =>
      exfalso
      have h2 : ([] : List Char) = escChar c ++ jsonEscape t := by
        simpa [jsonEscape] using h
      exact escChar_ne_nil c (by
        cases hesc : escChar c with
        | nil => rfl
        | cons a b => rw [hesc] at h2; simp at h2)
  | cons c t ih =>
    intro l2 h
    cases l2 with
    | nil =>
      exfalso
      have h2 : escChar c ++ jsonEscape t = ([] : List Char) := by
        simpa [jsonEscape] using h
      exact escChar_ne_nil c (by
        cases hesc : escChar c with
        | nil => rfl
        | cons a b => rw [hesc] at h2; simp at h2)
    | cons c2 t2 =>
      have h2 : escChar c ++ jsonEscape t = escChar c2 ++ jsonEscape t2 := by
        simpa [jsonEscape] using h
      have h3 := congrArg escDecode h2
      rw [escDecode_escChar, escDecode_escChar] at h3
      simp only [Option.some.injEq, Prod.mk.injEq] at h3
      rw [h3.1, ih t2 h3.2]

/-- The canonical signing payload is injective in the body: two messages
agreeing on every other field but with different bodies marshal to
different payloads. -/
theorem getSigningPayload_body_inj (m : Message) (b1 b2 : String)
    (h : getSigningPayload { m with body := b1 } = getSigningPayload { m with body := b2 }) :
    b1 = b2 := by
  unfold getSigningPayload at h
  have hpre : signingPayloadPre { m with body := b1 } =
      signingPayloadPre { m with body := b2 } := rfl
  have hsuf : signingPayloadSuf { m with body := b1 } =
      signingPayloadSuf { m with body := b2 } := rfl
  rw [hpre, hsuf] at h
  have hd := congrArg String.data h
  simp only [String.data_append] at hd
  have h1 : (jsonQuote b1).data = (jsonQuote b2).data :=
    List.append_cancel_left (List.append_cancel_right hd)
  have h2 : '"' :: (jsonEscape b1.data ++ ['"']) = '"' :: (jsonEscape b2.data ++ ['"']) := h1
  simp only [List.cons.injEq, true_and] at h2
  have h3 : jsonEscape b1.data = jsonEscape b2.data := List.append_cancel_right h2
  have h4 : b1.data = b2.data := jsonEscape_inj _ _ h3
  cases b1
  cases b2
  exact congrArg String.mk h4

/-- C3 (confirmed): a message built by the builder and signed with a
well-formed key pair (public key the one derived from the private key, 32
byte values, as for every key pair the keymgmt constructors produce)
verifies under that key pair's base64-encoded public key; and for every
correctly signed message under a loadable key, replacing the body by any
different string (for example `"hi"` by `"hj"`) makes `Verify` fail with the
signature-verification error, because the canonical payload is injective in
the body. -/
theorem c3_sign_verify
    (mb : MessageBuilder) (nonce : Nat) (m : Message) (kp : KeyPair)
    (hb : build mb nonce = .ok m)
    (hkp : kp.publicKey = ed25519PubOfPriv kp.privateKey)
    (hbytes : ∀ x ∈ kp.publicKey, x < 256)
    (hlen : kp.publicKey.length = 32) :
    Message.verify (Message.sign m kp) kp.publicKeyBase64 = .ok () ∧
    (∀ (msg : Message) (pk : String) (pub : List Nat) (s : Ed25519Sig) (b2 : String),
      msg.signature = some s →
      loadPublicKeyFromBase64 pk = .ok pub →
      ed25519Verify pub (getSigningPayload msg) s = true →
      b2 ≠ msg.body →
      Message.verify { msg with body := b2 } pk = .error "signature verification failed") := by
  constructor
  · have hload : loadPublicKeyFromBase64 kp.publicKeyBase64 = .ok kp.publicKey :=
      loadPublicKeyFromBase64_publicKeyBase64 kp hbytes hlen
    unfold Message.sign Message.verify
    dsimp only
    rw [hload]
    dsimp only
    rw [if_pos ?hcond]
    case hcond =>
      simp only [ed25519Verify, KeyPair.sign, ed25519SignBytes, Bool.and_eq_true,
        beq_iff_eq]
      exact ⟨hkp.symm, rfl⟩
  · intro msg pk pub s b2 hsig hload hver hne
    unfold Message.verify
    dsimp only
    rw [hsig]
    dsimp only
    rw [hload]
    dsimp only
    rw [if_neg ?hfalse]
    case hfalse =>
      intro habs
      simp only [ed25519Verify, Bool.and_eq_true, beq_iff_eq] at habs hver
      have hpay := hver.2.symm.trans habs.2
      have hx : getSigningPayload
            { ({ msg with signature := some s } : Message) with body := msg.body } =
          getSigningPayload
            { ({ msg with signature := some s } : Message) with body := b2 } := hpay
      have hbb : msg.body = b2 :=
        getSigningPayload_body_inj { msg with signature := some s } msg.body b2 hx
      exact hne hbb.symm

set_option maxRecDepth 8000 in
set_option maxHeartbeats 1000000 in
/-- C3 witness: the theorem applied to the concrete built message (`from
alice, to bob, body "hi"`), the fixed key pair, and the mutation of the body
to `"hj"`. -/
theorem c3_witness :
    Message.verify (Message.sign c3Built demoKeyPair) demoKeyPair.publicKeyBase64 = .ok () ∧
    Message.verify { Message.sign c3Built demoKeyPair with body := "hj" }
      demoKeyPair.publicKeyBase64 = .error "signature verification failed" := by
  have h := c3_sign_verify c3Builder 0 c3Built demoKeyPair rfl (by decide) (by decide) (by decide)
  exact ⟨h.1, h.2 (Message.sign c3Built demoKeyPair) demoKeyPair.publicKeyBase64 demoPub
    (ed25519SignBytes demoPriv (getSigningPayload c3Built)) "hj" rfl rfl (by decide) (by decide)⟩

/-- A serialized envelope is never the empty string (it starts with a
brace), so an encrypted body still passes the body-required validation. -/
theorem encodeEncryptedMessage_ne_empty (e : EncryptedMessage) :
    encodeEncryptedMessage e ≠ "" := by
  unfold encodeEncryptedMessage
  intro h
  have h2 := congrArg String.length h
  simp only [String.length_append] at h2
  have h3 : ("\x7b\"nonce\":" : String).length = 9 := rfl
  have h4 : ("" : String).length = 0 := rfl
  omega

/-- `MessageBuilder.validate` succeeds for a builder with a nonempty valid
sender, nonempty valid recipients, a nonempty body and a non-system type. -/
theorem mvalidate_ok (mb : MessageBuilder)
    (hfrom1 : mb.message.from_ ≠ "")
    (hfrom2 : isValidEMSGAddress mb.message.from_ = true)
    (hto : mb.message.to_ ≠ [])
    (hlist : validateEMSGAddressList (mb.message.to_ ++ mb.message.cc) = .ok ())
    (hbody : mb.message.body ≠ "")
    (hsys : goHasPrefix mb.message.type "system:" = false) :
    mvalidate mb = .ok () := by
  unfold mvalidate
  rw [if_neg hfrom1, if_neg (not_not_intro hfrom2), if_neg hto]
  simp only [hlist]
  rw [if_neg hbody, if_neg (by simp [hsys])]

/-- C5 (confirmed): with an encryption manager set (and a builder state that
passes validation), `Build` falls back to an unencrypted message — body
unchanged, `encrypted` false, `encryption_key` empty — whenever some
recipient in `to ++ cc` has no registered key; and when every recipient has
a key it encrypts the body with the key of the FIRST recipient only, stores
the serialized envelope verbatim as the body, and sets `encrypted = true`
and `encryption_key` to the sender's base64 encryption public key. -/
theorem c5_encrypt_first_recipient_or_fallback
    (mb : MessageBuilder) (em : EncryptionManager) (nonce : Nat)
    (hem : mb.encryptionManager = some em)
    (hfrom1 : mb.message.from_ ≠ "")
    (hfrom2 : isValidEMSGAddress mb.message.from_ = true)
    (hto : mb.message.to_ ≠ [])
    (hlist : validateEMSGAddressList (mb.message.to_ ++ mb.message.cc) = .ok ())
    (hbody : mb.message.body ≠ "")
    (hsys : goHasPrefix mb.message.type "system:" = false)
    (henc0 : mb.message.encrypted = false)
    (hkey0 : mb.message.encryptionKey = "") :
    ((mb.message.to_ ++ mb.message.cc).all (canEncryptFor em) = false →
      ∃ m, build mb nonce = .ok m ∧ m.body = mb.message.body ∧
        m.encrypted = false ∧ m.encryptionKey = "") ∧
    ((mb.message.to_ ++ mb.message.cc).all (canEncryptFor em) = true →
      ∃ m r0 rest pk, build mb nonce = .ok m ∧
        mb.message.to_ ++ mb.message.cc = r0 :: rest ∧
        List.lookup r0 em.keyStore = some pk ∧
        m.body = encodeEncryptedMessage
          ⟨nonce, .seal mb.message.body nonce pk em.keyPair.privateKey,
            em.keyPair.publicKey⟩ ∧
        m.encrypted = true ∧
        m.encryptionKey = encPubB64 em.keyPair.publicKey) := by
  have hval := mvalidate_ok mb hfrom1 hfrom2 hto hlist hbody hsys
  constructor
  · intro hall
    have hencA : encryptMessage mb nonce = .ok mb := by
      unfold encryptMessage
      rw [hem]
      dsimp only
      rw [if_pos (by simp [hall])]
    unfold build
    dsimp only
    rw [if_pos (by simp [hem, hbody])]
    rw [hencA]
    dsimp only
    rw [hval]
    dsimp only
    by_cases hid : mb.message.messageId = ""
    · rw [if_pos hid]
      exact ⟨_, rfl, rfl, henc0, hkey0⟩
    · rw [if_neg hid]
      exact ⟨mb.message, rfl, rfl, henc0, hkey0⟩
  · intro hall
    obtain ⟨r0, rest, heq⟩ : ∃ r0 rest, mb.message.to_ ++ mb.message.cc = r0 :: rest := by
      cases hto' : mb.message.to_ with
      | nil => exact absurd hto' hto
      | cons a t => exact ⟨a, t ++ mb.message.cc, by simp [hto']⟩
    have hcanr0 : canEncryptFor em r0 = true := by
      have := List.all_eq_true.mp hall r0 (by rw [heq]; exact List.mem_cons_self _ _)
      simpa using this
    obtain ⟨pk, hpk⟩ : ∃ pk, List.lookup r0 em.keyStore = some pk := by
      unfold canEncryptFor at hcanr0
      cases h : List.lookup r0 em.keyStore with
      | none => rw [h] at hcanr0; simp at hcanr0
      | some pk => exact ⟨pk, rfl⟩
    have hencB : encryptMessage mb nonce = .ok
        { mb with message := { mb.message with
            body := encodeEncryptedMessage
              ⟨nonce, .seal mb.message.body nonce pk em.keyPair.privateKey,
                em.keyPair.publicKey⟩,
            encrypted := true,
            encryptionKey := encPubB64 em.keyPair.publicKey } } := by
      unfold encryptMessage
      rw [hem]
      dsimp only
      rw [if_neg (not_not_intro hall)]
      rw [heq]
      dsimp only
      unfold encryptForRecipient
      rw [hpk]
    have hval2 : mvalidate { mb with message := { mb.message with
        body := encodeEncryptedMessage
          ⟨nonce, .seal mb.message.body nonce pk em.keyPair.privateKey,
            em.keyPair.publicKey⟩,
        encrypted := true,
        encryptionKey := encPubB64 em.keyPair.publicKey } } = .ok () :=
      mvalidate_ok _ hfrom1 hfrom2 hto hlist (encodeEncryptedMessage_ne_empty _) hsys
    unfold build
    dsimp only
    rw [if_pos (by simp [hem, hbody])]
    rw [hencB]
    dsimp only
    rw [hval2]
    dsimp only
    by_cases hid : mb.message.messageId = ""
    · rw [if_pos hid]
      exact ⟨_, r0, rest, pk, rfl, heq, hpk, rfl, rfl, rfl⟩
    · rw [if_neg hid]
      exact ⟨_, r0, rest, pk, rfl, heq, hpk, rfl, rfl, rfl⟩

set_option maxRecDepth 8000 in
set_option maxHeartbeats 1000000 in
/-- C5 witness: the theorem applied to a builder to bob (cc carol). Under
the manager that only knows carol, the bob key is missing and `Build` falls
back to the unencrypted body `"hi"`; under the manager knowing both, the
body becomes the envelope sealed with bob's key (the first recipient). -/
theorem c5_witness :
    (∃ m, build (c5Builder c5ManagerPartial) 5 = .ok m ∧
      m.body = "hi" ∧ m.encrypted = false ∧ m.encryptionKey = "") ∧
    (∃ m r0 rest pk, build (c5Builder c5ManagerFull) 5 = .ok m ∧
      ["bob#test.org"] ++ ["carol#test.org"] = r0 :: rest ∧
      List.lookup r0 c5ManagerFull.keyStore = some pk ∧
      m.body = encodeEncryptedMessage
        ⟨5, .seal "hi" 5 pk c5ManagerFull.keyPair.privateKey,
          c5ManagerFull.keyPair.publicKey⟩ ∧
      m.encrypted = true ∧
      m.encryptionKey = encPubB64 c5ManagerFull.keyPair.publicKey) :=
  ⟨(c5_encrypt_first_recipient_or_fallback (c5Builder c5ManagerPartial) c5ManagerPartial 5
      rfl (by decide) (by decide) (by decide) rfl (by decide) (by decide)
      rfl rfl).1 (by decide),
   (c5_encrypt_first_recipient_or_fallback (c5Builder c5ManagerFull) c5ManagerFull 5
      rfl (by decide) (by decide) (by decide) rfl (by decide) (by decide)
      rfl rfl).2 (by decide)⟩

end Emsg
